import Mathlib

/-!
Verification of the sasl-scram-js repository: a shallow embedding of its
SCRAM (RFC 5802/7677) message codec, crypto derivations and client/server
exchange state machines, with theorems settling the specification claims.

Strings are embedded as `List Char` (JS strings), byte arrays as `List Nat`
with values below 256 (JS `Uint8Array`).  External collaborators
(the WebCrypto primitives, the js-base64 codec, the saslprep package) are
modelled concretely from the standards they implement; every function of
the repository itself is translated line by line from its TypeScript source.
-/

/-- JS strings are modelled as lists of characters. -/
abbrev Str := List Char

/-- Byte arrays (`Uint8Array`) are modelled as lists of naturals below 256. -/
abbrev Bytes := List Nat

namespace JsRuntime

/-- Whitespace recognised by the ECMAScript `trim` method and `parseInt`:
the WhiteSpace and LineTerminator productions. -/
def isJsWs (c : Char) : Bool :=
  c.toNat = 0x9 || c.toNat = 0xA || c.toNat = 0xB || c.toNat = 0xC ||
  c.toNat = 0xD || c.toNat = 0x20 || c.toNat = 0xA0 || c.toNat = 0x1680 ||
  (0x2000 ≤ c.toNat && c.toNat ≤ 0x200A) || c.toNat = 0x2028 ||
  c.toNat = 0x2029 || c.toNat = 0x202F || c.toNat = 0x205F ||
  c.toNat = 0x3000 || c.toNat = 0xFEFF

/-- The ECMAScript `String.prototype.trim`: strip JS whitespace at both ends. -/
def jsTrim (s : Str) : Str :=
  ((s.dropWhile isJsWs).reverse.dropWhile isJsWs).reverse

/-- Index of the first occurrence of a character, as in `indexOf` restricted
to a one-character search string (`none` for the JS result -1). -/
def idxOfChar (c : Char) : Str → Option Nat
  | [] => none
  | x :: xs => if x = c then some 0 else (idxOfChar c xs).map (· + 1)

/-- The ECMAScript `String.prototype.indexOf(searchChar, position)`, with the
JS sentinel -1 kept as an `Int` so position arithmetic matches the source. -/
def jsIndexOfChar (c : Char) (s : Str) (start : Nat) : Int :=
  match idxOfChar c (s.drop start) with
  | none => -1
  | some i => ((start + i : Nat) : Int)

/-- Does `p` occur at the head of `s`? Used by substring search. -/
def startsWithStr : Str → Str → Bool
  | [], _ => true
  | _ :: _, [] => false
  | p :: ps, x :: xs => p = x && startsWithStr ps xs

/-- Index of the first occurrence of the substring `sep` (none when absent). -/
def findSub (sep : Str) : Str → Option Nat
  | [] => if sep.isEmpty then some 0 else none
  | x :: xs =>
    if startsWithStr sep (x :: xs) then some 0
    else (findSub sep xs).map (· + 1)

/-- Fuel-driven core of `String.prototype.split` with a nonempty separator. -/
def jsSplitStrFuel (sep : Str) : Nat → Str → List Str
  | 0, s => [s]
  | fuel + 1, s =>
    match findSub sep s with
    | none => [s]
    | some i => s.take i :: jsSplitStrFuel sep fuel (s.drop (i + sep.length))

/-- The ECMAScript `String.prototype.split(sep)` for a nonempty separator
string: every occurrence of `sep` cuts the string. -/
def jsSplitStr (sep s : Str) : List Str :=
  jsSplitStrFuel sep (s.length + 1) s

/-- The ECMAScript `String.prototype.split(sep)` for a one-character
separator, written structurally so proofs and evaluation are direct. -/
def splitChar (c : Char) : Str → List Str
  | [] => [[]]
  | x :: xs =>
    match splitChar c xs with
    | [] => [[]]
    | y :: ys => if x = c then [] :: y :: ys else (x :: y) :: ys

/-- Decimal digit value of a character, if any. -/
def digitVal10 (c : Char) : Option Nat :=
  if '0' ≤ c ∧ c ≤ '9' then some (c.toNat - 48) else none

/-- Hexadecimal digit value of a character, if any. -/
def digitVal16 (c : Char) : Option Nat :=
  if '0' ≤ c ∧ c ≤ '9' then some (c.toNat - 48)
  else if 'a' ≤ c ∧ c ≤ 'f' then some (c.toNat - 87)
  else if 'A' ≤ c ∧ c ≤ 'F' then some (c.toNat - 55)
  else none

/-- Sign handling of the ECMAScript `parseInt`: a leading minus or plus is
consumed, a minus recording negativity. -/
def jsParseIntSign (t : Str) : Bool × Str :=
  match t with
  | '-' :: r => (true, r)
  | '+' :: r => (false, r)
  | _ => (false, t)

/-- Radix detection of the ECMAScript `parseInt` with no radix argument: a
`0x` or `0X` prefix selects base 16, anything else base 10. -/
def jsParseIntRadix (t : Str) : Nat × Str :=
  match t with
  | '0' :: 'x' :: r => (16, r)
  | '0' :: 'X' :: r => (16, r)
  | _ => (10, t)

/-- The ECMAScript `parseInt(string)` with the radix argument omitted:
leading whitespace is skipped, an optional sign is read, a `0x` prefix
selects base 16, the longest prefix of digits is converted, and an empty
digit prefix gives NaN (modelled as `none`). -/
def jsParseInt (s : Str) : Option Int :=
  let t := s.dropWhile isJsWs
  let st := jsParseIntSign t
  let rt := jsParseIntRadix st.2
  let dv := if rt.1 = 16 then digitVal16 else digitVal10
  let ds := (rt.2.takeWhile (fun c => (dv c).isSome)).filterMap dv
  if ds.isEmpty then none
  else
    let v : Nat := ds.foldl (fun acc d => acc * rt.1 + d) 0
    some (if st.1 then -(v : Int) else (v : Int))

/-- Digit character for a value below ten. -/
def digitChar10 (n : Nat) : Char := Char.ofNat (48 + n)

/-- Fuel-driven decimal printing of a natural number. -/
def natToStrFuel : Nat → Nat → Str
  | 0, _ => []
  | fuel + 1, n =>
    if n < 10 then [digitChar10 n]
    else natToStrFuel fuel (n / 10) ++ [digitChar10 (n % 10)]

/-- Decimal printing of a natural number, as a JS number interpolated into a
template literal prints. -/
def natToStr (n : Nat) : Str := natToStrFuel (n + 1) n

/-- UTF-8 encoding of a single character, as `TextEncoder` produces. -/
def utf8Char (c : Char) : Bytes :=
  let n := c.toNat
  if n < 0x80 then [n]
  else if n < 0x800 then [0xC0 + n / 64, 0x80 + n % 64]
  else if n < 0x10000 then
    [0xE0 + n / 4096, 0x80 + n / 64 % 64, 0x80 + n % 64]
  else
    [0xF0 + n / 0x40000, 0x80 + n / 4096 % 64, 0x80 + n / 64 % 64, 0x80 + n % 64]

/-- The `TextEncoder().encode` call: UTF-8 bytes of a string. -/
def utf8Encode (s : Str) : Bytes := s.flatMap utf8Char

end JsRuntime

namespace B64

/-- Character of the standard base64 alphabet at an index below 64, as the
js-base64 package uses. -/
def charOfSextet (n : Nat) : Char :=
  if n < 26 then Char.ofNat (65 + n)
  else if n < 52 then Char.ofNat (97 + (n - 26))
  else if n < 62 then Char.ofNat (48 + (n - 52))
  else if n = 62 then '+'
  else '/'

/-- Decoding table of the standard base64 alphabet; `none` for every
character outside it, including the padding character. -/
def sextetOfChar (c : Char) : Option Nat :=
  if 'A' ≤ c ∧ c ≤ 'Z' then some (c.toNat - 65)
  else if 'a' ≤ c ∧ c ≤ 'z' then some (c.toNat - 97 + 26)
  else if '0' ≤ c ∧ c ≤ '9' then some (c.toNat - 48 + 52)
  else if c = '+' then some 62
  else if c = '/' then some 63
  else none

/-- Base64 encoding of a byte list in three-byte groups with `=` padding,
the output of `Base64.fromUint8Array` from the js-base64 package. -/
def encodeBytes : Bytes → Str
  | [] => []
  | [a] => [charOfSextet (a / 4), charOfSextet (a % 4 * 16), '=', '=']
  | [a, b] => [charOfSextet (a / 4), charOfSextet (a % 4 * 16 + b / 16),
               charOfSextet (b % 16 * 4), '=']
  | a :: b :: c :: rest =>
    charOfSextet (a / 4) :: charOfSextet (a % 4 * 16 + b / 16) ::
    charOfSextet (b % 16 * 4 + c / 64) :: charOfSextet (c % 64) ::
    encodeBytes rest

/-- Reassemble bytes from a list of sextet values in four-sextet groups, a
trailing group of two or three sextets yielding one or two bytes. -/
def bytesOfSextets : List Nat → Bytes
  | s1 :: s2 :: s3 :: s4 :: rest =>
    (s1 * 4 + s2 / 16) :: (s2 % 16 * 16 + s3 / 4) :: (s3 % 4 * 64 + s4) ::
    bytesOfSextets rest
  | [s1, s2, s3] => [s1 * 4 + s2 / 16, s2 % 16 * 16 + s3 / 4]
  | [s1, s2] => [s1 * 4 + s2 / 16]
  | _ => []

/-- Base64 decoding as `Base64.toUint8Array` from the js-base64 package
performs it: characters outside the alphabet (padding included) are
discarded and the remaining sextets are reassembled; no input is rejected. -/
def decodeStr (s : Str) : Bytes := bytesOfSextets (s.filterMap sextetOfChar)

end B64

open JsRuntime

/-- Errors thrown by the embedded code: a `ScramError` carrying an error
code (src/ts/utils/ScramError.ts) or a plain JS `Error` carrying only a
message. -/
inductive JsError where
  | scram (errorCode : Str)
  | err (message : Str)
deriving DecidableEq, Repr

instance {ε α : Type} [DecidableEq ε] [DecidableEq α] : DecidableEq (Except ε α) :=
  fun a b =>
    match a, b with
    | .ok x, .ok y =>
      if h : x = y then isTrue (by rw [h])
      else isFalse (fun hc => h (Except.ok.inj hc))
    | .error x, .error y =>
      if h : x = y then isTrue (by rw [h])
      else isFalse (fun hc => h (Except.error.inj hc))
    | .ok _, .error _ => isFalse (fun hc => Except.noConfusion hc)
    | .error _, .ok _ => isFalse (fun hc => Except.noConfusion hc)

/-- Error code constant from src/ts/utils/ScramError.ts. -/
def SCRAM_EXTENSIONS_NOT_SUPPORTED : Str := "extensions-not-supported".data

/-- Error code constant from src/ts/utils/ScramError.ts. -/
def SCRAM_INVALID_PROOF : Str := "invalid-proof".data

/-- Error code constant from src/ts/utils/ScramError.ts. -/
def SCRAM_CHANNEL_BINDING_NOT_SUPPORTED : Str := "channel-binding-not-supported".data

/-- Error code constant from src/ts/utils/ScramError.ts. -/
def SCRAM_UNKNOWN_USER : Str := "unknown-user".data

/-- Error code constant from src/ts/utils/ScramError.ts. -/
def SCRAM_OTHER_ERROR : Str := "other-error".data

/-- The xorArrayBuffer helper (src/ts/utils/xorArrayBuffer.ts): element-wise
XOR over the length of the left buffer.  A read past the right buffer is
`undefined`, which the JS XOR operator coerces to 0, and the store into the
result `Uint8Array` keeps the low eight bits. -/
def xorArrayBuffer : Bytes → Bytes → Bytes
  | [], _ => []
  | a :: as, [] => Nat.xor a 0 % 256 :: xorArrayBuffer as []
  | a :: as, b :: bs => Nat.xor a b % 256 :: xorArrayBuffer as bs

/-- A JS plain object used as a string-keyed dictionary, as
`readScramParamString` builds: insertion-ordered pairs with unique keys. -/
abbrev ParamDict := List (Str × Str)

/-- Assignment `results[left] = right` on a JS object: overwrite the value
in place when the key exists, append the pair otherwise. -/
def dictSet (d : ParamDict) (k v : Str) : ParamDict :=
  if d.any (fun p => p.1 == k) then
    d.map (fun p => if p.1 == k then (k, v) else p)
  else d ++ [(k, v)]

/-- Property read `params[key]` on a JS object dictionary. -/
def getParam (d : ParamDict) (k : Str) : Option Str :=
  (d.find? (fun p => p.1 == k)).map (·.2)

/-- JS truthiness of `params[key]`: the key is present with a nonempty
value. -/
def truthy (v : Option Str) : Bool :=
  match v with
  | none => false
  | some s => !s.isEmpty

/-- Loop body of readScramParamString: a segment with no equals sign is
skipped; otherwise the trimmed text before the first equals sign is
assigned the trimmed text after it. -/
def readScramParamStep (results : ParamDict) (part : Str) : ParamDict :=
  match idxOfChar '=' part with
  | none => results
  | some index =>
    dictSet results (jsTrim (part.take index)) (jsTrim (part.drop (index + 1)))

/-- The readScramParamString function (src/ts/message/readParamString.ts):
split the message on commas and fold every segment through the assignment
step, a later duplicate key overwriting an earlier one. -/
def readScramParamString (s : Str) : ParamDict :=
  (splitChar ',' s).foldl readScramParamStep []

namespace Sha256

/-- Reduction modulo 2^32, the word size of SHA-256. -/
def m32 (n : Nat) : Nat := n % 4294967296

/-- Right rotation of a 32-bit word. -/
def rotr (n x : Nat) : Nat := m32 (x >>> n ||| x <<< (32 - n))

/-- The SHA-256 choose function. -/
def ch (e f g : Nat) : Nat := Nat.xor (Nat.land e f) (Nat.land (Nat.xor e 4294967295) g)

/-- The SHA-256 majority function. -/
def maj (a b c : Nat) : Nat := Nat.xor (Nat.land a b) (Nat.xor (Nat.land a c) (Nat.land b c))

/-- Upper-case sigma-0 of FIPS 180-4. -/
def bigSigma0 (x : Nat) : Nat := Nat.xor (rotr 2 x) (Nat.xor (rotr 13 x) (rotr 22 x))

/-- Upper-case sigma-1 of FIPS 180-4. -/
def bigSigma1 (x : Nat) : Nat := Nat.xor (rotr 6 x) (Nat.xor (rotr 11 x) (rotr 25 x))

/-- Lower-case sigma-0 of FIPS 180-4. -/
def smallSigma0 (x : Nat) : Nat := Nat.xor (rotr 7 x) (Nat.xor (rotr 18 x) (x >>> 3))

/-- Lower-case sigma-1 of FIPS 180-4. -/
def smallSigma1 (x : Nat) : Nat := Nat.xor (rotr 17 x) (Nat.xor (rotr 19 x) (x >>> 10))

/-- The sixty-four SHA-256 round constants. -/
def K : List Nat :=
  [1116352408, 1899447441, 3049323471, 3921009573, 961987163, 1508970993,
   2453635748, 2870763221, 3624381080, 310598401, 607225278, 1426881987,
   1925078388, 2162078206, 2614888103, 3248222580, 3835390401, 4022224774,
   264347078, 604807628, 770255983, 1249150122, 1555081692, 1996064986,
   2554220882, 2821834349, 2952996808, 3210313671, 3336571891, 3584528711,
   113926993, 338241895, 666307205, 773529912, 1294757372, 1396182291,
   1695183700, 1986661051, 2177026350, 2456956037, 2730485921, 2820302411,
   3259730800, 3345764771, 3516065817, 3600352804, 4094571909, 275423344,
   430227734, 506948616, 659060556, 883997877, 958139571, 1322822218,
   1537002063, 1747873779, 1955562222, 2024104815, 2227730452, 2361852424,
   2428436474, 2756734187, 3204031479, 3329325298]

/-- Working registers of the SHA-256 compression function. -/
structure Regs where
  a : Nat
  b : Nat
  c : Nat
  d : Nat
  e : Nat
  f : Nat
  g : Nat
  h : Nat

/-- Initial hash value of SHA-256. -/
def H0 : Regs :=
  ⟨1779033703, 3144134277, 1013904242, 2773480762,
   1359893119, 2600822924, 528734635, 1541459225⟩

/-- One SHA-256 round, taking the sum of the round constant and the
schedule word. -/
def round (r : Regs) (kw : Nat) : Regs :=
  let t1 := m32 (r.h + bigSigma1 r.e + ch r.e r.f r.g + kw)
  let t2 := m32 (bigSigma0 r.a + maj r.a r.b r.c)
  ⟨m32 (t1 + t2), r.a, r.b, r.c, m32 (r.d + t1), r.e, r.f, r.g⟩

/-- Extend sixteen message words to the sixty-four-word schedule by the
FIPS 180-4 recurrence, carrying the words newest-first while building so
every lookback reads at most sixteen cells. -/
def extendSchedule (block : List Nat) : List Nat :=
  ((List.range 48).foldl
    (fun wrev _ =>
      m32 (smallSigma1 (wrev.getD 1 0) + wrev.getD 6 0 +
           smallSigma0 (wrev.getD 14 0) + wrev.getD 15 0) :: wrev)
    block.reverse).reverse

/-- The SHA-256 compression function on one sixteen-word block. -/
def compress (st : Regs) (block : List Nat) : Regs :=
  let w := extendSchedule block
  let r := (K.zip w).foldl (fun r kw => round r (m32 (kw.1 + kw.2))) st
  ⟨m32 (st.a + r.a), m32 (st.b + r.b), m32 (st.c + r.c), m32 (st.d + r.d),
   m32 (st.e + r.e), m32 (st.f + r.f), m32 (st.g + r.g), m32 (st.h + r.h)⟩

/-- Big-endian 32-bit words from bytes, four at a time. -/
def wordsOfBytes : Bytes → List Nat
  | a :: b :: c :: d :: rest =>
    (a * 16777216 + b * 65536 + c * 256 + d) :: wordsOfBytes rest
  | _ => []

/-- Big-endian bytes of a 32-bit word. -/
def bytesOfWord (w : Nat) : Bytes :=
  [w / 16777216 % 256, w / 65536 % 256, w / 256 % 256, w % 256]

/-- Big-endian eight-byte encoding of the message bit length. -/
def bytesOfLen64 (n : Nat) : Bytes :=
  [n / 72057594037927936 % 256, n / 281474976710656 % 256,
   n / 1099511627776 % 256, n / 4294967296 % 256,
   n / 16777216 % 256, n / 65536 % 256, n / 256 % 256, n % 256]

/-- FIPS 180-4 padding: a 0x80 byte, zeros to 56 modulo 64, and the bit
length in eight big-endian bytes. -/
def pad (msg : Bytes) : Bytes :=
  let len := msg.length
  msg ++ 0x80 :: List.replicate ((120 - (len + 1) % 64) % 64) 0 ++
    bytesOfLen64 (len * 8)

/-- Fuel-driven split of a byte list into 64-byte blocks. -/
def chunks64Fuel : Nat → Bytes → List Bytes
  | 0, _ => []
  | _ + 1, [] => []
  | fuel + 1, l => l.take 64 :: chunks64Fuel fuel (l.drop 64)

/-- The SHA-256 digest of a byte list, the `crypto.subtle.digest` model. -/
def sha256 (msg : Bytes) : Bytes :=
  let padded := pad msg
  let blocks := chunks64Fuel padded.length padded
  let st := blocks.foldl (fun st blk => compress st (wordsOfBytes blk)) H0
  bytesOfWord st.a ++ bytesOfWord st.b ++ bytesOfWord st.c ++ bytesOfWord st.d ++
  bytesOfWord st.e ++ bytesOfWord st.f ++ bytesOfWord st.g ++ bytesOfWord st.h

end Sha256

/-- The data of one WebCrypto hash algorithm as the repository consumes it:
the digest function, the block size HMAC pads keys to, and the `keylen`
value (in bits) the ScramAlgo constructor passes to `deriveBits`.  The
repository instantiates this with the SHA family; theorems quantify over it
where the source is generic. -/
structure ScramAlgoModel where
  hashFn : Bytes → Bytes
  blockSize : Nat
  keylen : Nat

/-- HMAC as `crypto.subtle.importKey` plus `sign("HMAC", key, message)`
compute it (RFC 2104): the key is hashed when longer than the block size,
zero-padded to the block size, and combined with the inner and outer pads. -/
def webHmac (A : ScramAlgoModel) (key msg : Bytes) : Bytes :=
  let k0 := if A.blockSize < key.length then A.hashFn key else key
  let kPad := k0 ++ List.replicate (A.blockSize - k0.length) 0
  A.hashFn ((kPad.map (fun b => Nat.xor b 0x5C)) ++
    A.hashFn ((kPad.map (fun b => Nat.xor b 0x36)) ++ msg))

/-- Big-endian four-byte block index used by PBKDF2. -/
def int32be (n : Nat) : Bytes :=
  [n / 16777216 % 256, n / 65536 % 256, n / 256 % 256, n % 256]

/-- One PBKDF2 output block (RFC 8018): iterated HMAC keyed by the password,
XOR-folded. -/
def pbkdf2Block (A : ScramAlgoModel) (pw salt : Bytes) (iter idx : Nat) : Bytes :=
  let u1 := webHmac A pw (salt ++ int32be idx)
  ((List.range (iter - 1)).foldl
    (fun acc _ =>
      let u2 := webHmac A pw acc.2
      (xorArrayBuffer acc.1 u2, u2))
    (u1, u1)).1

/-- PBKDF2 as `crypto.subtle.deriveBits` computes it for `keylen` output
bits: enough HMAC blocks to cover `keylen / 8` bytes, truncated. -/
def webPbkdf2 (A : ScramAlgoModel) (pw salt : Bytes) (iter : Nat) : Bytes :=
  let dkLen := A.keylen / 8
  let hLen := (A.hashFn []).length
  let blocks := (dkLen + hLen - 1) / hLen
  (((List.range blocks).map (fun i => pbkdf2Block A pw salt iter (i + 1))).flatten).take dkLen

/-- Modelled from the WebCrypto API contract: `deriveBits` rejects an
iteration count below one (the count reaches it as a JS number, negative
after a server-first message advertising a negative count). -/
def webPbkdf2Checked (A : ScramAlgoModel) (pw salt : Bytes) (iter : Int) :
    Except JsError Bytes :=
  if iter < 1 then .error (.err "pbkdf2 iteration count out of range".data)
  else .ok (webPbkdf2 A pw salt iter.toNat)

/-- Modelled from the external saslprep package: is the character in the
RFC 3454 C.1.2 table of non-ASCII spaces the package maps to a plain
space? -/
def isSaslSpace (c : Char) : Bool :=
  c.toNat = 0xA0 || c.toNat = 0x1680 ||
  (0x2000 ≤ c.toNat && c.toNat ≤ 0x200B) ||
  c.toNat = 0x202F || c.toNat = 0x205F || c.toNat = 0x3000

/-- Modelled from the external saslprep package: is the character in the
RFC 3454 B.1 table the package maps to nothing? -/
def isSaslNothing (c : Char) : Bool :=
  c.toNat = 0xAD || c.toNat = 0x34F || c.toNat = 0x1806 ||
  (0x180B ≤ c.toNat && c.toNat ≤ 0x180D) ||
  (0x200B ≤ c.toNat && c.toNat ≤ 0x200D) ||
  c.toNat = 0x2060 || (0xFE00 ≤ c.toNat && c.toNat ≤ 0xFE0F) ||
  c.toNat = 0xFEFF

/-- Modelled from the external saslprep package (called with
`allowUnassigned: true` everywhere in the repository): non-ASCII spaces are
mapped to a space, the map-to-nothing characters are removed, and a
prohibited character makes the call throw.  This restricted model keeps the
ASCII control prohibition (RFC 4013 C.2.1) exercised by the repository's
own tests; NFKC normalization and the remaining prohibition tables are
omitted, and the model is applied only at inputs those omitted steps leave
unchanged. -/
def saslPrep (s : Str) : Except JsError Str :=
  let mapped := (s.map (fun c => if isSaslSpace c then ' ' else c)).filter
    (fun c => !isSaslNothing c)
  if mapped.any (fun c => c.toNat < 0x20 || c.toNat = 0x7F) then
    .error (.err "Prohibited character, see RFC 4013 section 2.3".data)
  else .ok mapped

namespace ScramAlgo

/-- The pbkdf2 method of ScramAlgo (src/ts/algo/ScramAlgo.ts): PBKDF2 via
WebCrypto with this algorithm and `keylen` output bits. -/
def pbkdf2 (A : ScramAlgoModel) (password salt : Bytes) (iterations : Int) :
    Except JsError Bytes :=
  webPbkdf2Checked A password salt iterations

/-- The hmac method of ScramAlgo: `hmac(message, secret)` imports `secret`
as the HMAC key and signs `message`. -/
def hmac (A : ScramAlgoModel) (message secret : Bytes) : Bytes :=
  webHmac A secret message

/-- The hash method of ScramAlgo: a plain digest. -/
def hash (A : ScramAlgoModel) (text : Bytes) : Bytes := A.hashFn text

/-- The getSaltedPassword method of ScramAlgo: saslprep the password, then
PBKDF2 its UTF-8 bytes with the salt and iteration count. -/
def getSaltedPassword (A : ScramAlgoModel) (password : Str) (salt : Bytes)
    (iterations : Int) : Except JsError Bytes :=
  (saslPrep password).bind (fun prepped => pbkdf2 A (utf8Encode prepped) salt iterations)

/-- The getClientKey method of ScramAlgo: `hmac(saltedPassword, "Client Key")`. -/
def getClientKey (A : ScramAlgoModel) (saltedPassword : Bytes) : Bytes :=
  hmac A saltedPassword (utf8Encode "Client Key".data)

/-- The getStoredKey method of ScramAlgo: the hash of the client key. -/
def getStoredKey (A : ScramAlgoModel) (saltedPassword : Bytes) : Bytes :=
  hash A (getClientKey A saltedPassword)

/-- The getServerKey method of ScramAlgo: `hmac(saltedPassword, "Server Key")`. -/
def getServerKey (A : ScramAlgoModel) (saltedPassword : Bytes) : Bytes :=
  hmac A saltedPassword (utf8Encode "Server Key".data)

end ScramAlgo

/-- The SCRAM-SHA-256 instance of the algorithm port: digest SHA-256,
HMAC block size 64 bytes, 256 derived bits. -/
def sha256Algo : ScramAlgoModel :=
  { hashFn := Sha256.sha256, blockSize := 64, keylen := 256 }

/-- Parsed client-first-message (src/ts/message/ScramMessageClientFirst.ts):
the raw text, the text after the GS2 header, the saslprep-normalized
username, the channel-binding flag, the client nonce, and the reserved `m`
extension (absent or present, possibly empty, mirroring the JS field that
may hold `undefined`). -/
structure MsgClientFirst where
  message : Str
  messageBare : Str
  user : Str
  gs2CbindFlag : Str
  nonce : Str
  mext : Option Str
deriving DecidableEq, Repr

/-- The ScramMessageClientFirst constructor: locate the end of the GS2
header after the second comma, split the header into flag and authzid, read
the parameters of the full message, require `n`, normalize the username
with saslprep, and require nonce, username and flag nonempty. -/
def parseClientFirst (message : Str) : Except JsError MsgClientFirst :=
  let i1 := jsIndexOfChar ',' message 0
  let i2 := jsIndexOfChar ',' message (i1 + 1).toNat
  let index := (i2 + 1).toNat
  let gs2CbindFlag := (splitChar ',' (message.take index)).headD []
  let messageBare := message.drop index
  let params := readScramParamString message
  if truthy (getParam params "n".data) then
    (saslPrep ((getParam params "n".data).getD [])).bind (fun user =>
      let nonce := getParam params "r".data
      let mext := getParam params "m".data
      if truthy nonce ∧ ¬user.isEmpty ∧ ¬gs2CbindFlag.isEmpty then
        .ok { message := message, messageBare := messageBare, user := user,
              gs2CbindFlag := gs2CbindFlag, nonce := nonce.getD [], mext := mext }
      else .error (.err "Unable to read client-first-message".data))
  else .error (.err "Unable to read client-first-message".data)

/-- Parsed server-first-message (src/ts/message/ScramMessageServerFirst.ts):
raw text, combined nonce, decoded salt, and the iteration count as
`parseInt` produced it (an `Int`, since `parseInt` accepts a sign). -/
structure MsgServerFirst where
  message : Str
  nonce : Str
  salt : Bytes
  iterations : Int
deriving DecidableEq, Repr

/-- The ScramMessageServerFirst constructor: require nonempty `r`, `s` and
`i` parameters, decode the salt from base64, convert the iteration count
with `parseInt` and reject NaN. -/
def parseServerFirst (message : Str) : Except JsError MsgServerFirst :=
  let params := readScramParamString message
  if truthy (getParam params "r".data) ∧ truthy (getParam params "s".data) ∧
      truthy (getParam params "i".data) then
    match jsParseInt ((getParam params "i".data).getD []) with
    | none => .error (.err "Unable to read server-first-message".data)
    | some iterations =>
      .ok { message := message, nonce := (getParam params "r".data).getD [],
            salt := B64.decodeStr ((getParam params "s".data).getD []),
            iterations := iterations }
  else .error (.err "Unable to read server-first-message".data)

/-- Parsed client-final-message (src/ts/message/ScramMessageClientFinal.ts):
raw text, the text before `,p=`, the base64 GS2 header, the combined nonce,
and the base64 client proof. -/
structure MsgClientFinal where
  message : Str
  messageWithoutProof : Str
  gs2Header : Str
  nonce : Str
  clientProof : Str
deriving DecidableEq, Repr

/-- The ScramMessageClientFinal constructor: split the text on the literal
`,p=` into the without-proof part and the proof, read `c` and `r` from the
without-proof part, and require all four fields nonempty. -/
def parseClientFinal (message : Str) : Except JsError MsgClientFinal :=
  let parts := jsSplitStr ",p=".data message
  let clientFinalWithoutProof := parts.headD []
  let proof := parts.drop 1 |>.headD []
  let params := readScramParamString clientFinalWithoutProof
  let gs2Header := getParam params "c".data
  let nonce := getParam params "r".data
  if truthy gs2Header ∧ truthy nonce ∧ ¬clientFinalWithoutProof.isEmpty ∧
      ¬(parts.drop 1).isEmpty ∧ ¬proof.isEmpty then
    .ok { message := message, messageWithoutProof := clientFinalWithoutProof,
          gs2Header := gs2Header.getD [], nonce := nonce.getD [],
          clientProof := proof }
  else .error (.err "Unable to read client-final-message".data)

/-- Parsed server-final-message (src/ts/message/ScramMessageServerFinal.ts):
raw text plus the error and verifier fields, each a string or the JS
literal `false` (modelled as `none`). -/
structure MsgServerFinal where
  message : Str
  error : Option Str
  verifier : Option Str
deriving DecidableEq, Repr

/-- The ScramMessageServerFinal constructor: read `e` and `v`, coerce a
falsy read (absent key or empty value) to `false`, and fail only when both
are `false`. -/
def parseServerFinal (message : Str) : Except JsError MsgServerFinal :=
  let params := readScramParamString message
  let error := if truthy (getParam params "e".data) then getParam params "e".data else none
  let verifier := if truthy (getParam params "v".data) then getParam params "v".data else none
  if error = none ∧ verifier = none then
    .error (.err "Unable to read server-final-message".data)
  else .ok { message := message, error := error, verifier := verifier }

/-- A stored credential record (the ScramUser interface of
src/ts/user/ScramUser.ts together with the MockScramUser and example
implementations): derived artifacts only, never the password. -/
structure ScramUserRec where
  username : Str
  salt : Bytes
  iterations : Nat
  serverKey : Bytes
  storedKey : Bytes
deriving DecidableEq, Repr

/-- The ScramUserRepo interface (src/ts/user/ScramUserRepo.ts) as consumed
by the server: a username lookup.  `has` is `isSome` of the lookup. -/
abbrev ScramUserRepo := Str → Option ScramUserRec

/-- The find method contract, as both repository implementations in the
source realize it: return the user or throw a ScramError with the
unknown-user code. -/
def repoFind (repo : ScramUserRepo) (username : Str) : Except JsError ScramUserRec :=
  match repo username with
  | some user => .ok user
  | none => .error (.scram SCRAM_UNKNOWN_USER)

/-- A SaltGenerator (src/ts/utils/SaltGenerator.ts) as the server consumes
it: a function from username to salt bytes; the two provided policies
differ only in how this function is built. -/
abbrev SaltGeneratorFn := Str → Bytes

/-- The four optional message slots of the ScramRequest base class
(its protected fields), the mutable state of one exchange. -/
structure ScramRequestState where
  clientFirstMessage : Option MsgClientFirst := none
  serverFirstMessage : Option MsgServerFirst := none
  clientFinalMessage : Option MsgClientFinal := none
  serverFinalMessage : Option MsgServerFinal := none
deriving DecidableEq, Repr

/-- The setClientFirstMessage method of ScramRequest. -/
def setClientFirstMessage (st : ScramRequestState) (m : MsgClientFirst) : ScramRequestState :=
  { st with clientFirstMessage := some m }

/-- The setServerFirstMessage method of ScramRequest. -/
def setServerFirstMessage (st : ScramRequestState) (m : MsgServerFirst) : ScramRequestState :=
  { st with serverFirstMessage := some m }

/-- The setClientFinalMessage method of ScramRequest. -/
def setClientFinalMessage (st : ScramRequestState) (m : MsgClientFinal) : ScramRequestState :=
  { st with clientFinalMessage := some m }

/-- The setServerFinalMessage method of ScramRequest. -/
def setServerFinalMessage (st : ScramRequestState) (m : MsgServerFinal) : ScramRequestState :=
  { st with serverFinalMessage := some m }

/-- The getAuthMessage method of ScramRequest: UTF-8 bytes of the bare
client-first, the full server-first and the supplied
client-final-without-proof, comma-joined.  The source reads the two stored
messages through non-null casts; the embedding passes them explicitly at
the call sites, all of which have checked the slots. -/
def getAuthMessage (cf : MsgClientFirst) (sf : MsgServerFirst)
    (clientFinalWithoutProof : Str) : Bytes :=
  utf8Encode (cf.messageBare ++ ",".data ++ sf.message ++ ",".data ++ clientFinalWithoutProof)

namespace ScramRequestClient

/-- The gs2_header field of ScramRequestClient, always the literal `n,`. -/
def gs2_header : Str := "n,".data

/-- The default maxIterations of ScramRequestClient (DEFAULT_CONFIG),
0xffffff. -/
def DEFAULT_CONFIG_maxIterations : Nat := 0xffffff

/-- Resolution of ScramRequestClientOptions against DEFAULT_CONFIG by
`Object.assign`. -/
def resolveMaxIterations (options : Option Nat) : Nat :=
  options.getD DEFAULT_CONFIG_maxIterations

/-- Decimal text of the iteration count as interpolated into the error
message (a JS number, possibly negative). -/
def intToStr (i : Int) : Str :=
  if i < 0 then '-' :: natToStr (-i).toNat else natToStr i.toNat

/-- The createClientFirstMessage method: base64 a fresh 24-byte random
buffer (passed in, randomness being external) into the client nonce and
parse the built text.  The parsed message is stored only on success. -/
def createClientFirstMessage (st : ScramRequestState) (user : Str)
    (randomBuffer : Bytes) : Except JsError MsgClientFirst × ScramRequestState :=
  let c_nonce := B64.encodeBytes randomBuffer
  match parseClientFirst (gs2_header ++ ",n=".data ++ user ++ ",r=".data ++ c_nonce) with
  | .ok m => (.ok m, setClientFirstMessage st m)
  | .error e => (.error e, st)

/-- The getSaltedPassword method: require client-first and server-first,
reject an iteration count above the configured maximum, and return the
PBKDF2 of the UTF-8 password bytes with the advertised salt and count. -/
def getSaltedPassword (A : ScramAlgoModel) (maxIterations : Nat)
    (st : ScramRequestState) (password : Str) :
    Except JsError Bytes × ScramRequestState :=
  match st.clientFirstMessage, st.serverFirstMessage with
  | some _, some sf =>
    let salt := sf.salt
    let iterations := sf.iterations
    if iterations > (maxIterations : Int) then
      (.error (.err ("Iteration count of ".data ++ intToStr iterations ++
        " exceeed maximum of ".data ++ natToStr maxIterations)), st)
    else
      (ScramAlgo.pbkdf2 A (utf8Encode password) salt iterations, st)
  | _, _ =>
    (.error (.err "Unable to create salted password, missing client-first-message or server-first-message.".data), st)

/-- The createClientFinalMessage method: derive client and stored keys,
build the without-proof text from the base64 GS2 header and the combined
nonce, sign the transcript, XOR into the proof, and parse the final text.
The parsed message is stored only on success. -/
def createClientFinalMessage (A : ScramAlgoModel) (st : ScramRequestState)
    (saltedPassword : Bytes) : Except JsError MsgClientFinal × ScramRequestState :=
  match st.clientFirstMessage, st.serverFirstMessage with
  | some cf, some sf =>
    let clientKey := ScramAlgo.getClientKey A saltedPassword
    let storedKey := ScramAlgo.getStoredKey A saltedPassword
    let gs2header := B64.encodeBytes (utf8Encode (gs2_header ++ ",".data))
    let nonce := sf.nonce
    let clientFinalWithoutProof := "c=".data ++ gs2header ++ ",r=".data ++ nonce
    let authMessage := getAuthMessage cf sf clientFinalWithoutProof
    let clientSignature := ScramAlgo.hmac A storedKey authMessage
    let proof := B64.encodeBytes (xorArrayBuffer clientKey clientSignature)
    match parseClientFinal (clientFinalWithoutProof ++ ",p=".data ++ proof) with
    | .ok m => (.ok m, setClientFinalMessage st m)
    | .error e => (.error e, st)
  | _, _ =>
    (.error (.err "Unable to create client-final-message, missing client-first-message or server-first-message.".data), st)

/-- The verifyServerFinalMessage method: require all four slots, recompute
the server signature over the transcript, and compare its base64 text with
the received verifier (`false === string` being false when the server-final
carried an error instead). -/
def verifyServerFinalMessage (A : ScramAlgoModel) (st : ScramRequestState)
    (saltedPassword : Bytes) : Except JsError Bool × ScramRequestState :=
  match st.clientFirstMessage, st.serverFirstMessage, st.clientFinalMessage,
      st.serverFinalMessage with
  | some cf, some sf, some cfin, some sfin =>
    let serverKey := ScramAlgo.getServerKey A saltedPassword
    let authMessage := getAuthMessage cf sf cfin.messageWithoutProof
    let proof := B64.encodeBytes (ScramAlgo.hmac A serverKey authMessage)
    (.ok (match sfin.verifier with
          | some v => v == proof
          | none => false), st)
  | _, _, _, _ =>
    (.error (.err "Unable to verify server-final-message, missing client-first-message, server-first-message, client-final-message or server-final-message.".data), st)

end ScramRequestClient

namespace ScramRequestServer

/-- The verifyClientFinalMessage method: require the first three slots,
return false for an unknown user, otherwise recover the client key from
the transmitted proof and the recomputed signature and compare the hash of
the recovered key with the stored key (base64 text on both sides). -/
def verifyClientFinalMessage (A : ScramAlgoModel) (repo : ScramUserRepo)
    (st : ScramRequestState) : Except JsError Bool × ScramRequestState :=
  match st.clientFirstMessage, st.serverFirstMessage, st.clientFinalMessage with
  | some cf, some sf, some cfin =>
    let username := cf.user
    match repo username with
    | none => (.ok false, st)
    | some user =>
      let clientProof := B64.decodeStr cfin.clientProof
      let storedKey := user.storedKey
      let authMessage := getAuthMessage cf sf cfin.messageWithoutProof
      let clientSignature := ScramAlgo.hmac A storedKey authMessage
      let clientKey := xorArrayBuffer clientSignature clientProof
      (.ok (B64.encodeBytes storedKey == B64.encodeBytes (ScramAlgo.hash A clientKey)), st)
  | _, _, _ =>
    (.error (.err "Unable to verify client-final-message, missing client-first-message, server-first-message, or client-final-message.".data), st)

/-- The createServerFirstMessage method: require client-first, take salt
and iteration count from the repository or (for an unknown user) from the
salt policy and the configured default count, append a fresh base64 server
nonce (random bytes passed in) to the client nonce, and parse the built
text.  The parsed message is stored only on success. -/
def createServerFirstMessage (repo : ScramUserRepo) (saltGenerator : SaltGeneratorFn)
    (iterations : Nat) (st : ScramRequestState) (randomBuffer : Bytes) :
    Except JsError MsgServerFirst × ScramRequestState :=
  match st.clientFirstMessage with
  | some cf =>
    let username := cf.user
    let c_nonce := cf.nonce
    let saltIter : Bytes × Nat :=
      match repo username with
      | some user => (user.salt, user.iterations)
      | none => (saltGenerator username, iterations)
    let encodedSalt := B64.encodeBytes saltIter.1
    let s_nonce := B64.encodeBytes randomBuffer
    let nonce := c_nonce ++ s_nonce
    match parseServerFirst ("r=".data ++ nonce ++ ",s=".data ++ encodedSalt ++
        ",i=".data ++ natToStr saltIter.2) with
    | .ok m => (.ok m, setServerFirstMessage st m)
    | .error e => (.error e, st)
  | none =>
    (.error (.err "Unable to create server-first-message, missing client-first-message.".data), st)

/-- The errorCode the catch clause reads off the caught value after its
cast to ScramError: the code itself, or the text `undefined` a template
literal prints for the absent field of a plain Error. -/
def caughtErrorCode : JsError → Str
  | .scram code => code
  | .err _ => "undefined".data

/-- The createServerFinalMessage method: require the first three slots;
inside the try block refuse an extension request, refuse a channel-binding
flag other than `n`, look the user up (throwing unknown-user), compute the
verifier, and turn a failed proof verification into invalid-proof; the
catch clause folds any thrown error into an `e=` message, concealed to
other-error when configured.  The built message is stored and returned. -/
def createServerFinalMessage (A : ScramAlgoModel) (repo : ScramUserRepo)
    (concealErrors : Bool) (st : ScramRequestState) :
    Except JsError MsgServerFinal × ScramRequestState :=
  match st.clientFirstMessage, st.serverFirstMessage, st.clientFinalMessage with
  | some cf, some sf, some cfin =>
    let username := cf.user
    let tried : Except JsError MsgServerFinal := do
      if truthy cf.mext then
        throw (.scram SCRAM_EXTENSIONS_NOT_SUPPORTED)
      if cf.gs2CbindFlag ≠ "n".data then
        throw (.scram SCRAM_CHANNEL_BINDING_NOT_SUPPORTED)
      let user ← repoFind repo username
      let serverKey := user.serverKey
      let authMessage := getAuthMessage cf sf cfin.messageWithoutProof
      let proof := B64.encodeBytes (ScramAlgo.hmac A serverKey authMessage)
      let verified ← (verifyClientFinalMessage A repo st).1
      if !verified then
        throw (.scram SCRAM_INVALID_PROOF)
      else
        parseServerFinal ("v=".data ++ proof)
    match tried with
    | .ok m => (.ok m, setServerFinalMessage st m)
    | .error e =>
      match parseServerFinal ("e=".data ++
          (if concealErrors then SCRAM_OTHER_ERROR else caughtErrorCode e)) with
      | .ok m => (.ok m, setServerFinalMessage st m)
      | .error e2 => (.error e2, st)
  | _, _, _ =>
    (.error (.err "Unable to create server-final-message, missing client-first-message, server-first-message, or client-final-message.".data), st)

end ScramRequestServer

/-- One complete exchange with the message flow of the standard
authentication test (src/ts/test/request.spec.ts): the client builds
client-first, the server ingests it and answers server-first, the client
ingests that and builds client-final from the supplied salted password, the
server ingests it and answers server-final, the client ingests that; the
result pairs the server-side and client-side verification outcomes.  The
two random nonce buffers are passed in. -/
def fullExchange (A : ScramAlgoModel) (repo : ScramUserRepo)
    (saltGenerator : SaltGeneratorFn) (iterations : Nat) (user : Str)
    (saltedPassword : Bytes) (clientRandom serverRandom : Bytes) :
    Except JsError (Bool × Bool) :=
  let client0 : ScramRequestState := {}
  let server0 : ScramRequestState := {}
  match ScramRequestClient.createClientFirstMessage client0 user clientRandom with
  | (.error e, _) => .error e
  | (.ok cfm, client1) =>
    let server1 := setClientFirstMessage server0 cfm
    match ScramRequestServer.createServerFirstMessage repo saltGenerator iterations
        server1 serverRandom with
    | (.error e, _) => .error e
    | (.ok sfm, server2) =>
      let client2 := setServerFirstMessage client1 sfm
      match ScramRequestClient.createClientFinalMessage A client2 saltedPassword with
      | (.error e, _) => .error e
      | (.ok cffm, client3) =>
        let server3 := setClientFinalMessage server2 cffm
        match ScramRequestServer.createServerFinalMessage A repo false server3 with
        | (.error e, _) => .error e
        | (.ok sfinal, server4) =>
          let client4 := setServerFinalMessage client3 sfinal
          match (ScramRequestServer.verifyClientFinalMessage A repo server4).1,
              (ScramRequestClient.verifyServerFinalMessage A client4 saltedPassword).1 with
          | .ok serverOk, .ok clientOk => .ok (serverOk, clientOk)
          | .error e, _ => .error e
          | _, .error e => .error e

/-- The credential registration performed before the exchanges in the test
and example files: salted password via the algorithm port, then server and
stored keys from it. -/
def registerUser (A : ScramAlgoModel) (username : Str) (salt : Bytes)
    (saltedPassword : Bytes) (iterations : Nat) : ScramUserRec :=
  { username := username, salt := salt, iterations := iterations,
    serverKey := ScramAlgo.getServerKey A saltedPassword,
    storedKey := ScramAlgo.getStoredKey A saltedPassword }

/-- A repository holding exactly one credential record. -/
def singletonRepo (rec : ScramUserRec) : ScramUserRepo :=
  fun u => if u = rec.username then some rec else none

/-- A value safe to carry through the comma-separated wire format: free of
commas (so splitting leaves it whole) and of JS whitespace (so trimming
leaves it unchanged). -/
abbrev plainValue (s : Str) : Prop := ∀ a ∈ s, a ≠ ',' ∧ isJsWs a = false

namespace JsRuntime

theorem dropWhile_eq_self_of {p : Char → Bool} {s : Str}
    (h : ∀ a ∈ s, p a = false) : s.dropWhile p = s := by
  cases s with
  | nil => rfl
  | cons x xs => simp [List.dropWhile_cons, h x (by simp)]

theorem jsTrim_eq_self {s : Str} (h : ∀ a ∈ s, isJsWs a = false) :
    jsTrim s = s := by
  unfold jsTrim
  rw [dropWhile_eq_self_of h, dropWhile_eq_self_of (fun a ha => h a (by simpa using ha))]
  simp

theorem splitChar_ne_nil (c : Char) (s : Str) : splitChar c s ≠ [] := by
  induction s with
  | nil => simp [splitChar]
  | cons x xs ih =>
    cases h : splitChar c xs with
    | nil => exact absurd h ih
    | cons y ys => by_cases hx : x = c <;> simp [splitChar, h, hx]

theorem splitChar_cons_self (c : Char) (xs : Str) :
    splitChar c (c :: xs) = [] :: splitChar c xs := by
  cases h : splitChar c xs with
  | nil => exact absurd h (splitChar_ne_nil c xs)
  | cons y ys => simp [splitChar, h]

theorem splitChar_of_not_mem {c : Char} {u : Str} (h : ∀ a ∈ u, a ≠ c) :
    splitChar c u = [u] := by
  induction u with
  | nil => rfl
  | cons x xs ih =>
    simp [splitChar, ih (fun a ha => h a (by simp [ha])), h x (by simp)]

theorem splitChar_append {c : Char} {u : Str} (rest : Str) (h : ∀ a ∈ u, a ≠ c) :
    splitChar c (u ++ c :: rest) = u :: splitChar c rest := by
  induction u with
  | nil => simpa using splitChar_cons_self c rest
  | cons x xs ih =>
    rw [List.cons_append]
    cases hr : splitChar c (xs ++ c :: rest) with
    | nil => exact absurd hr (splitChar_ne_nil c _)
    | cons y ys =>
      have := ih (fun a ha => h a (by simp [ha]))
      rw [hr] at this
      simp only [List.cons.injEq] at this
      simp [splitChar, hr, h x (by simp), this.1, this.2]

theorem idxOfChar_of_not_mem {c : Char} {u : Str} (h : ∀ a ∈ u, a ≠ c) :
    idxOfChar c u = none := by
  induction u with
  | nil => rfl
  | cons x xs ih =>
    simp [idxOfChar, h x (by simp), ih (fun a ha => h a (by simp [ha]))]

theorem startsWithStr_append (s t : Str) : startsWithStr s (s ++ t) = true := by
  induction s with
  | nil => rfl
  | cons x xs ih => simp [startsWithStr, ih]

theorem findSub_append_sep {c : Char} {cs : Str} (rest : Str) :
    findSub (c :: cs) (c :: cs ++ rest) = some 0 := by
  rw [List.cons_append]
  unfold findSub
  simp [startsWithStr, startsWithStr_append]

theorem findSub_cons_of_not_starts {sep : Str} {x : Char} {xs : Str}
    (h : startsWithStr sep (x :: xs) = false) :
    findSub sep (x :: xs) = (findSub sep xs).map (· + 1) := by
  simp [findSub, h]

theorem findSub_comma_append {t u : Str} (v : Str) (h : ∀ a ∈ u, a ≠ ',') :
    findSub (',' :: t) (u ++ v) = (findSub (',' :: t) v).map (· + u.length) := by
  induction u with
  | nil => cases hf : findSub (',' :: t) v <;> simp [hf]
  | cons x xs ih =>
    have hx : x ≠ ',' := h x (by simp)
    rw [List.cons_append, findSub_cons_of_not_starts
      (by simp [startsWithStr]; intro hc; exact absurd hc.symm hx),
      ih (fun a ha => h a (by simp [ha]))]
    cases hf : findSub (',' :: t) v <;> simp [hf]
    omega

theorem findSub_comma_of_not_mem {t u : Str} (h : ∀ a ∈ u, a ≠ ',') :
    findSub (',' :: t) u = none := by
  have := findSub_comma_append (t := t) [] h
  simpa using this

theorem jsSplitStrFuel_of_none {sep s : Str} (h : findSub sep s = none) :
    ∀ fuel, jsSplitStrFuel sep fuel s = [s] := by
  intro fuel
  cases fuel with
  | zero => rfl
  | succ f => simp [jsSplitStrFuel, h]

theorem jsSplitStr_of_none {sep s : Str} (h : findSub sep s = none) :
    jsSplitStr sep s = [s] :=
  jsSplitStrFuel_of_none h _

theorem jsSplitStr_two {sep a b : Str}
    (hfind : findSub sep (a ++ sep ++ b) = some a.length)
    (hrest : findSub sep b = none) :
    jsSplitStr sep (a ++ sep ++ b) = [a, b] := by
  unfold jsSplitStr
  have hlen : (a ++ sep ++ b).length + 1 = (a ++ sep ++ b).length + 1 := rfl
  rw [show (a ++ sep ++ b).length + 1 = ((a ++ sep ++ b).length) + 1 from rfl]
  simp only [jsSplitStrFuel, hfind]
  have htake : (a ++ sep ++ b).take a.length = a := by
    rw [List.append_assoc, List.take_left]
  have hdrop : (a ++ sep ++ b).drop (a.length + sep.length) = b := by
    rw [← List.length_append, List.drop_left]
  rw [htake, hdrop, jsSplitStrFuel_of_none hrest]

end JsRuntime

namespace B64

theorem sextet_char_roundtrip : ∀ n, n < 64 → sextetOfChar (charOfSextet n) = some n := by
  decide

theorem charOfSextet_plain : ∀ n, n < 64 →
    (charOfSextet n ≠ ',' ∧ isJsWs (charOfSextet n) = false) := by
  decide

theorem encodeBytes_plain {bs : Bytes} (h : ∀ b ∈ bs, b < 256) :
    plainValue (encodeBytes bs) := by
  induction bs using encodeBytes.induct with
  | case1 => intro a ha; simp [encodeBytes] at ha
  | case2 x =>
    intro a ha
    have hx := h x (by simp)
    simp [encodeBytes] at ha
    rcases ha with ha | ha | ha <;> subst ha
    · exact charOfSextet_plain _ (by omega)
    · exact charOfSextet_plain _ (by omega)
    · constructor <;> decide
  | case3 x y =>
    intro a ha
    have hx := h x (by simp)
    have hy := h y (by simp)
    simp [encodeBytes] at ha
    rcases ha with ha | ha | ha | ha <;> subst ha
    · exact charOfSextet_plain _ (by omega)
    · exact charOfSextet_plain _ (by omega)
    · exact charOfSextet_plain _ (by omega)
    · constructor <;> decide
  | case4 x y z rest ih =>
    intro a ha
    have hx := h x (by simp)
    have hy := h y (by simp)
    have hz := h z (by simp)
    simp only [encodeBytes, List.mem_cons] at ha
    rcases ha with ha | ha | ha | ha | ha
    · subst ha; exact charOfSextet_plain _ (by omega)
    · subst ha; exact charOfSextet_plain _ (by omega)
    · subst ha; exact charOfSextet_plain _ (by omega)
    · subst ha; exact charOfSextet_plain _ (by omega)
    · exact ih (fun b hb => h b (by simp [hb])) a ha

theorem encodeBytes_ne_nil {bs : Bytes} (h : bs ≠ []) : encodeBytes bs ≠ [] := by
  match bs with
  | [] => exact absurd rfl h
  | [a] => simp [encodeBytes]
  | [a, b] => simp [encodeBytes]
  | a :: b :: c :: rest => simp [encodeBytes]

theorem decode_encode {bs : Bytes} (h : ∀ b ∈ bs, b < 256) :
    decodeStr (encodeBytes bs) = bs := by
  induction bs using encodeBytes.induct with
  | case1 => rfl
  | case2 x =>
    have hx := h x (by simp)
    simp only [encodeBytes, decodeStr, List.filterMap]
    rw [sextet_char_roundtrip _ (by omega), sextet_char_roundtrip _ (by omega)]
    simp [sextetOfChar, bytesOfSextets]
    omega
  | case3 x y =>
    have hx := h x (by simp)
    have hy := h y (by simp)
    simp only [encodeBytes, decodeStr, List.filterMap]
    rw [sextet_char_roundtrip _ (by omega), sextet_char_roundtrip _ (by omega),
      sextet_char_roundtrip _ (by omega)]
    simp [sextetOfChar, bytesOfSextets]
    omega
  | case4 x y z rest ih =>
    have hx := h x (by simp)
    have hy := h y (by simp)
    have hz := h z (by simp)
    have ihr := ih (fun b hb => h b (by simp [hb]))
    simp only [encodeBytes, decodeStr, List.filterMap_cons]
    rw [sextet_char_roundtrip _ (by omega), sextet_char_roundtrip _ (by omega),
      sextet_char_roundtrip _ (by omega), sextet_char_roundtrip _ (by omega)]
    simp only [decodeStr] at ihr
    simp only [bytesOfSextets, ihr]
    simp only [List.cons.injEq]
    refine ⟨by omega, by omega, by omega, trivial⟩

end B64

namespace JsRuntime

/-- Numeric value of an all-digit string, the reference value for parseInt. -/
def digitsVal (s : Str) : Nat := s.foldl (fun acc c => acc * 10 + (c.toNat - 48)) 0

theorem digitsVal_append_digit (xs : Str) (c : Char) :
    digitsVal (xs ++ [c]) = digitsVal xs * 10 + (c.toNat - 48) := by
  simp [digitsVal, List.foldl_append]

theorem isDigitChar_bounds {c : Char} (h : '0' ≤ c ∧ c ≤ '9') :
    48 ≤ c.toNat ∧ c.toNat ≤ 57 := by
  obtain ⟨h1, h2⟩ := h
  simp [Char.le_def] at h1 h2
  exact ⟨h1, h2⟩

theorem isJsWs_of_digit {c : Char} (h : '0' ≤ c ∧ c ≤ '9') : isJsWs c = false := by
  have := isDigitChar_bounds h
  simp [isJsWs]
  omega

theorem digitVal10_of_digit {c : Char} (h : '0' ≤ c ∧ c ≤ '9') :
    digitVal10 c = some (c.toNat - 48) := by
  simp [digitVal10, h.1, h.2]

theorem digitChar10_toNat {n : Nat} (h : n < 10) : (digitChar10 n).toNat = 48 + n := by
  unfold digitChar10 Char.ofNat
  rw [dif_pos (by omega)]
  rfl

theorem char_le_iff_toNat (a b : Char) : a ≤ b ↔ a.toNat ≤ b.toNat := Iff.rfl

theorem digitChar10_is_digit {n : Nat} (h : n < 10) :
    '0' ≤ digitChar10 n ∧ digitChar10 n ≤ '9' := by
  have ht := digitChar10_toNat h
  have h0 : ('0' : Char).toNat = 48 := rfl
  have h9 : ('9' : Char).toNat = 57 := rfl
  constructor <;> rw [char_le_iff_toNat] <;> omega

theorem natToStrFuel_spec : ∀ fuel n, n < 10 ^ fuel → 1 ≤ fuel →
    natToStrFuel fuel n ≠ [] ∧ (∀ c ∈ natToStrFuel fuel n, '0' ≤ c ∧ c ≤ '9') ∧
    digitsVal (natToStrFuel fuel n) = n := by
  intro fuel
  induction fuel with
  | zero => intro n hn hf; omega
  | succ f ih =>
    intro n hn _
    by_cases h10 : n < 10
    · refine ⟨by simp [natToStrFuel, h10], ?_, ?_⟩
      · intro c hc
        simp [natToStrFuel, h10] at hc
        subst hc
        exact digitChar10_is_digit h10
      · simp [natToStrFuel, h10, digitsVal]
        have := digitChar10_toNat h10
        omega
    · have hdiv : n / 10 < 10 ^ f := by
        rw [Nat.div_lt_iff_lt_mul (by norm_num)]
        calc n < 10 ^ (f + 1) := hn
        _ = 10 ^ f * 10 := by ring
      have hf1 : 1 ≤ f := by
        by_contra hc
        have : f = 0 := by omega
        subst this
        simp at hn
        omega
      obtain ⟨hne, hdig, hval⟩ := ih (n / 10) hdiv hf1
      refine ⟨by simp [natToStrFuel, h10], ?_, ?_⟩
      · intro c hc
        simp only [natToStrFuel, if_neg h10, List.mem_append, List.mem_singleton] at hc
        rcases hc with hc | hc
        · exact hdig c hc
        · subst hc
          exact digitChar10_is_digit (by omega)
      · simp only [natToStrFuel, if_neg h10]
        rw [digitsVal_append_digit, hval, digitChar10_toNat (by omega)]
        omega

theorem natToStr_spec (n : Nat) :
    natToStr n ≠ [] ∧ (∀ c ∈ natToStr n, '0' ≤ c ∧ c ≤ '9') ∧
    digitsVal (natToStr n) = n := by
  have hlt : n < 10 ^ (n + 1) := by
    calc n < n + 1 := by omega
    _ ≤ 10 ^ (n + 1) := Nat.le_of_lt (Nat.lt_pow_self (by norm_num) _)
  exact natToStrFuel_spec (n + 1) n hlt (by omega)

theorem takeWhile_eq_self_of {p : Char → Bool} {s : Str}
    (h : ∀ a ∈ s, p a = true) : s.takeWhile p = s := by
  induction s with
  | nil => rfl
  | cons x xs ih =>
    simp [List.takeWhile_cons, h x (by simp), ih (fun a ha => h a (by simp [ha]))]

theorem jsParseIntSign_digit {c : Char} {rest : Str}
    (h : '0' ≤ c ∧ c ≤ '9') :
    jsParseIntSign (c :: rest) = (false, c :: rest) := by
  have hb := isDigitChar_bounds h
  unfold jsParseIntSign
  split
  · rename_i r heq
    rw [List.cons.injEq] at heq
    obtain ⟨rfl, rfl⟩ := heq
    exact absurd hb.1 (by decide)
  · rename_i r heq
    rw [List.cons.injEq] at heq
    obtain ⟨rfl, rfl⟩ := heq
    exact absurd hb.1 (by decide)
  · rfl

theorem jsParseIntRadix_digits {c : Char} {rest : Str}
    (h : ∀ a ∈ c :: rest, '0' ≤ a ∧ a ≤ '9') :
    jsParseIntRadix (c :: rest) = (10, c :: rest) := by
  unfold jsParseIntRadix
  split
  · rename_i r heq
    have hx : 'x' ∈ c :: rest := by rw [heq]; simp
    exact absurd (isDigitChar_bounds (h 'x' hx)).2 (by decide)
  · rename_i r heq
    have hx : 'X' ∈ c :: rest := by rw [heq]; simp
    exact absurd (isDigitChar_bounds (h 'X' hx)).2 (by decide)
  · rfl

theorem jsParseInt_digits {s : Str} (hne : s ≠ [])
    (h : ∀ c ∈ s, '0' ≤ c ∧ c ≤ '9') :
    jsParseInt s = some (digitsVal s) := by
  obtain ⟨c, rest, rfl⟩ : ∃ c rest, s = c :: rest := by
    cases s with
    | nil => exact absurd rfl hne
    | cons c rest => exact ⟨c, rest, rfl⟩
  have hws : (c :: rest).dropWhile isJsWs = c :: rest := by
    rw [List.dropWhile_cons, isJsWs_of_digit (h c (by simp))]
    simp
  have hfm : ∀ t : Str, (∀ a ∈ t, '0' ≤ a ∧ a ≤ '9') →
      t.filterMap digitVal10 = t.map (fun a => a.toNat - 48) := by
    intro t ht
    induction t with
    | nil => rfl
    | cons x xs ih =>
      rw [List.filterMap_cons, digitVal10_of_digit (ht x (by simp)), List.map_cons,
        ih (fun a ha => ht a (by simp [ha]))]
  have htw : (c :: rest).takeWhile (fun a => (digitVal10 a).isSome) = c :: rest := by
    refine takeWhile_eq_self_of ?_
    intro a ha
    rw [digitVal10_of_digit (h a ha)]
    rfl
  simp only [jsParseInt, hws, jsParseIntSign_digit (h c (by simp)),
    jsParseIntRadix_digits h]
  norm_num
  rw [htw, hfm _ h]
  refine ⟨⟨c, by simp, ?_⟩, ?_⟩
  · rw [digitVal10_of_digit (h c (by simp))]
    simp
  · rw [List.foldl_map]
    rfl

end JsRuntime

/-- Printable ASCII characters other than space and comma: on these the
saslprep model is the identity and trimming and splitting leave values
whole. -/
abbrev safeChar (c : Char) : Prop := 0x20 < c.toNat ∧ c.toNat < 0x7F ∧ c ≠ ','

theorem plainValue_of_safe {s : Str} (h : ∀ a ∈ s, safeChar a) : plainValue s := by
  intro a ha
  obtain ⟨h1, h2, h3⟩ := h a ha
  refine ⟨h3, ?_⟩
  simp [JsRuntime.isJsWs]
  omega

theorem saslPrep_safe {s : Str} (h : ∀ a ∈ s, safeChar a) : saslPrep s = .ok s := by
  have hm : s.map (fun c => if isSaslSpace c then ' ' else c) = s := by
    induction s with
    | nil => rfl
    | cons x xs ih =>
      obtain ⟨h1, h2, _⟩ := h x (by simp)
      have hx : isSaslSpace x = false := by
        simp [isSaslSpace]
        omega
      simp only [List.map_cons, hx, if_false, Bool.false_eq_true,
        ih (fun a ha => h a (by simp [ha])), List.cons.injEq]
  have hf : s.filter (fun c => !isSaslNothing c) = s := by
    refine List.filter_eq_self.mpr ?_
    intro a ha
    obtain ⟨h1, h2, _⟩ := h a ha
    have : isSaslNothing a = false := by
      simp [isSaslNothing]
      omega
    simp [this]
  have hp : s.any (fun c => c.toNat < 0x20 || c.toNat = 0x7F) = false := by
    rw [List.any_eq_false]
    intro a ha
    obtain ⟨h1, h2, _⟩ := h a ha
    simp
    omega
  unfold saslPrep
  rw [hm, hf]
  simp [hp]

theorem xorArrayBuffer_length (l r : Bytes) :
    (xorArrayBuffer l r).length = l.length := by
  induction l generalizing r with
  | nil => rfl
  | cons a as ih =>
    cases r with
    | nil => simp [xorArrayBuffer, ih]
    | cons b bs => simp [xorArrayBuffer, ih]

theorem xorArrayBuffer_lt (l r : Bytes) : ∀ b ∈ xorArrayBuffer l r, b < 256 := by
  induction l generalizing r with
  | nil => intro b hb; simp [xorArrayBuffer] at hb
  | cons a as ih =>
    intro b hb
    cases r with
    | nil =>
      simp only [xorArrayBuffer, List.mem_cons] at hb
      rcases hb with hb | hb
      · omega
      · exact ih [] b hb
    | cons c cs =>
      simp only [xorArrayBuffer, List.mem_cons] at hb
      rcases hb with hb | hb
      · omega
      · exact ih cs b hb

theorem xorArrayBuffer_cancel {l r : Bytes} (hlen : l.length = r.length)
    (hl : ∀ b ∈ l, b < 256) (hr : ∀ b ∈ r, b < 256) :
    xorArrayBuffer r (xorArrayBuffer l r) = l := by
  induction l generalizing r with
  | nil =>
    cases r with
    | nil => rfl
    | cons b bs => simp at hlen
  | cons a as ih =>
    cases r with
    | nil => simp at hlen
    | cons b bs =>
      have ha : a < 256 := hl a (by simp)
      have hb : b < 256 := hr b (by simp)
      have hxab : Nat.xor a b < 256 := Nat.xor_lt_two_pow (n := 8) ha hb
      simp only [xorArrayBuffer, List.cons.injEq]
      constructor
      · rw [Nat.mod_eq_of_lt hxab]
        have hcan : Nat.xor b (Nat.xor a b) = a := by
          show b ^^^ (a ^^^ b) = a
          rw [Nat.xor_comm a b, ← Nat.xor_assoc, Nat.xor_self, Nat.zero_xor]
        rw [hcan, Nat.mod_eq_of_lt ha]
      · exact ih (by simpa using hlen) (fun x hx => hl x (by simp [hx]))
          (fun x hx => hr x (by simp [hx]))

theorem webHmac_length {A : ScramAlgoModel} {hLen : Nat}
    (hA : ∀ x, (A.hashFn x).length = hLen) (key msg : Bytes) :
    (webHmac A key msg).length = hLen := by
  unfold webHmac
  exact hA _

theorem webHmac_lt {A : ScramAlgoModel}
    (hA : ∀ x, ∀ b ∈ A.hashFn x, b < 256) (key msg : Bytes) :
    ∀ b ∈ webHmac A key msg, b < 256 := by
  unfold webHmac
  exact hA _

theorem getParam_nil (q : Str) : getParam [] q = none := rfl

theorem getParam_dictSet (d : ParamDict) (k v q : Str) :
    getParam (dictSet d k v) q = if q = k then some v else getParam d q := by
  unfold dictSet
  by_cases hany : d.any (fun p => p.1 == k)
  · rw [if_pos hany]
    unfold getParam
    rw [List.find?_map]
    have hcong : ((fun p : Str × Str => p.1 == q) ∘
        (fun p : Str × Str => if p.1 == k then (k, v) else p)) =
        (fun p : Str × Str => p.1 == q) := by
      funext p
      by_cases hpk : p.1 = k
      · simp [hpk]
      · simp [beq_iff_eq, hpk]
    rw [hcong]
    by_cases hqk : q = k
    · subst hqk
      rw [if_pos rfl]
      have hsome : (d.find? (fun p => p.1 == q)).isSome := by
        rw [List.find?_isSome]
        obtain ⟨p, hp, hpk⟩ := List.any_eq_true.mp hany
        exact ⟨p, hp, hpk⟩
      obtain ⟨p, hp⟩ := Option.isSome_iff_exists.mp hsome
      have hpk : (p.1 == q) = true := by
        have := List.find?_some hp
        simpa using this
      rw [hp]
      simp [hpk, eq_of_beq hpk]
    · rw [if_neg hqk]
      cases hf : d.find? (fun p => p.1 == q) with
      | none => simp [getParam, hf]
      | some p =>
        have hpq : p.1 = q := by
          have := List.find?_some hf
          simpa using this
        have hpk : p.1 ≠ k := by
          rw [hpq]
          exact fun hc => hqk hc
        simp [getParam, hf, hpk]
  · rw [if_neg hany]
    unfold getParam
    rw [List.find?_append]
    by_cases hqk : q = k
    · subst hqk
      have hany2 : d.any (fun p => p.1 == q) = false := by
        revert hany
        cases d.any (fun p => p.1 == q) <;> simp
      have hnone : d.find? (fun p => p.1 == q) = none := by
        rw [List.find?_eq_none]
        intro x hx
        have := List.any_eq_false.mp hany2 x hx
        simpa using this
      rw [hnone]
      simp [List.find?]
    · have hne2 : (k == q) = false := beq_eq_false_iff_ne.mpr (fun hc => hqk hc.symm)
      have hkv : (List.find? (fun p => p.1 == q) [(k, v)]) = none := by
        simp [List.find?, hne2]
      rw [hkv, if_neg hqk]
      cases d.find? (fun p => p.1 == q) <;> rfl

theorem readScramParamStep_skip (d : ParamDict) (part : Str)
    (h : idxOfChar '=' part = none) : readScramParamStep d part = d := by
  simp [readScramParamStep, h]

theorem nonWs_of_plain {v : Str} (hv : plainValue v) : ∀ a ∈ v, isJsWs a = false :=
  fun a ha => (hv a ha).2

theorem readScramParamStep_kv (d : ParamDict) (k : Char) (v : Str)
    (hk : k ≠ '=' ∧ isJsWs k = false) (hv : ∀ a ∈ v, isJsWs a = false) :
    readScramParamStep d (k :: '=' :: v) = dictSet d [k] v := by
  have hidx : idxOfChar '=' (k :: '=' :: v) = some 1 := by
    simp [idxOfChar, hk.1]
  simp only [readScramParamStep, hidx, List.take, List.drop]
  rw [jsTrim_eq_self (by intro a ha; simp at ha; subst ha; exact hk.2),
    jsTrim_eq_self hv]

theorem isEmpty_false_of_ne {s : Str} (h : s ≠ []) : s.isEmpty = false := by
  cases s with
  | nil => exact absurd rfl h
  | cons x xs => rfl

theorem truthy_some {s : Str} (h : s ≠ []) : truthy (some s) = true := by
  simp [truthy, isEmpty_false_of_ne h]

theorem noComma_key_value {k e : Char} {v : Str} (hk : k ≠ ',') (he : e ≠ ',')
    (hv : plainValue v) : ∀ a ∈ k :: e :: v, a ≠ ',' := by
  intro a ha
  simp at ha
  rcases ha with rfl | rfl | ha
  · exact hk
  · exact he
  · exact (hv a ha).1

/-- Parameter reads of a client-first-message of the shape the client
builds. -/
theorem readScram_clientFirstParams (U CN : Str) (hU : plainValue U)
    (hCN : plainValue CN) (q : Str) :
    getParam (readScramParamString ("n,,n=".data ++ U ++ ",r=".data ++ CN)) q =
      if q = ['r'] then some CN else if q = ['n'] then some U else none := by
  have hform : "n,,n=".data ++ U ++ ",r=".data ++ CN =
      ['n'] ++ ',' :: ([] ++ ',' :: (('n' :: '=' :: U) ++ ',' :: ('r' :: '=' :: CN))) := by
    simp
  have hsplit : splitChar ',' ("n,,n=".data ++ U ++ ",r=".data ++ CN) =
      [['n'], [], 'n' :: '=' :: U, 'r' :: '=' :: CN] := by
    rw [hform, splitChar_append _ (by decide), splitChar_append _ (by simp),
      splitChar_append _ (noComma_key_value (by decide) (by decide) hU),
      splitChar_of_not_mem (noComma_key_value (by decide) (by decide) hCN)]
  unfold readScramParamString
  rw [hsplit, List.foldl_cons, readScramParamStep_skip _ ['n'] (by decide),
    List.foldl_cons, readScramParamStep_skip _ [] (by decide),
    List.foldl_cons, readScramParamStep_kv _ _ _ (by decide) (nonWs_of_plain hU),
    List.foldl_cons, readScramParamStep_kv _ _ _ (by decide) (nonWs_of_plain hCN),
    List.foldl_nil, getParam_dictSet, getParam_dictSet, getParam_nil]

/-- Parameter reads of a server-first-message of the shape the server
builds. -/
theorem readScram_serverFirstParams (NN B D : Str) (hNN : plainValue NN)
    (hB : plainValue B) (hD : plainValue D) (q : Str) :
    getParam (readScramParamString ("r=".data ++ NN ++ ",s=".data ++ B ++
        ",i=".data ++ D)) q =
      if q = ['i'] then some D else if q = ['s'] then some B
      else if q = ['r'] then some NN else none := by
  have hform : "r=".data ++ NN ++ ",s=".data ++ B ++ ",i=".data ++ D =
      ('r' :: '=' :: NN) ++ ',' :: (('s' :: '=' :: B) ++ ',' :: ('i' :: '=' :: D)) := by
    simp
  have hsplit : splitChar ',' ("r=".data ++ NN ++ ",s=".data ++ B ++ ",i=".data ++ D) =
      ['r' :: '=' :: NN, 's' :: '=' :: B, 'i' :: '=' :: D] := by
    rw [hform, splitChar_append _ (noComma_key_value (by decide) (by decide) hNN),
      splitChar_append _ (noComma_key_value (by decide) (by decide) hB),
      splitChar_of_not_mem (noComma_key_value (by decide) (by decide) hD)]
  unfold readScramParamString
  rw [hsplit, List.foldl_cons, readScramParamStep_kv _ _ _ (by decide) (nonWs_of_plain hNN),
    List.foldl_cons, readScramParamStep_kv _ _ _ (by decide) (nonWs_of_plain hB),
    List.foldl_cons, readScramParamStep_kv _ _ _ (by decide) (nonWs_of_plain hD),
    List.foldl_nil, getParam_dictSet, getParam_dictSet, getParam_dictSet, getParam_nil]

/-- Parameter reads of a client-final-message-without-proof of the shape the
client builds. -/
theorem readScram_clientFinalParams (G NN : Str) (hG : plainValue G)
    (hNN : plainValue NN) (q : Str) :
    getParam (readScramParamString ("c=".data ++ G ++ ",r=".data ++ NN)) q =
      if q = ['r'] then some NN else if q = ['c'] then some G else none := by
  have hform : "c=".data ++ G ++ ",r=".data ++ NN =
      ('c' :: '=' :: G) ++ ',' :: ('r' :: '=' :: NN) := by
    simp
  have hsplit : splitChar ',' ("c=".data ++ G ++ ",r=".data ++ NN) =
      ['c' :: '=' :: G, 'r' :: '=' :: NN] := by
    rw [hform, splitChar_append _ (noComma_key_value (by decide) (by decide) hG),
      splitChar_of_not_mem (noComma_key_value (by decide) (by decide) hNN)]
  unfold readScramParamString
  rw [hsplit, List.foldl_cons, readScramParamStep_kv _ _ _ (by decide) (nonWs_of_plain hG),
    List.foldl_cons, readScramParamStep_kv _ _ _ (by decide) (nonWs_of_plain hNN),
    List.foldl_nil, getParam_dictSet, getParam_dictSet, getParam_nil]

/-- Parameter reads of a one-parameter message such as `v=...` or `e=...`,
with any single-character key. -/
theorem readScram_singleParam (k : Char) (V : Str) (hk : k ≠ ',' ∧ k ≠ '=' ∧ isJsWs k = false)
    (hV : plainValue V) (q : Str) :
    getParam (readScramParamString (k :: '=' :: V)) q =
      if q = [k] then some V else none := by
  have hsplit : splitChar ',' (k :: '=' :: V) = [k :: '=' :: V] :=
    splitChar_of_not_mem (noComma_key_value hk.1 (by decide) hV)
  unfold readScramParamString
  rw [hsplit, List.foldl_cons, readScramParamStep_kv _ _ _ ⟨hk.2.1, hk.2.2⟩ (nonWs_of_plain hV),
    List.foldl_nil, getParam_dictSet, getParam_nil]

/-- Parsing the client-first-message the client builds yields exactly the
expected fields. -/
theorem parseClientFirst_shape (U CN P : Str) (hU : plainValue U) (hUne : U ≠ [])
    (hCN : plainValue CN) (hCNne : CN ≠ [])
    (hprep : saslPrep U = .ok P) (hPne : P ≠ []) :
    parseClientFirst ("n,,n=".data ++ U ++ ",r=".data ++ CN) = .ok
      { message := "n,,n=".data ++ U ++ ",r=".data ++ CN,
        messageBare := "n=".data ++ U ++ ",r=".data ++ CN,
        user := P, gs2CbindFlag := ['n'], nonce := CN, mext := none } := by
  simp only [parseClientFirst]
  rw [readScram_clientFirstParams U CN hU hCN "n".data,
    readScram_clientFirstParams U CN hU hCN "r".data,
    readScram_clientFirstParams U CN hU hCN "m".data,
    if_neg (by decide : ¬("n".data : Str) = ['r']),
    if_pos (by decide : ("n".data : Str) = ['n']),
    if_pos (by decide : ("r".data : Str) = ['r']),
    if_neg (by decide : ¬("m".data : Str) = ['r']),
    if_neg (by decide : ¬("m".data : Str) = ['n']),
    if_pos (truthy_some hUne)]
  simp only [Option.getD_some, hprep, Except.bind]
  rw [if_pos ⟨truthy_some hCNne, by simp [isEmpty_false_of_ne hPne], Bool.false_ne_true⟩]
  rfl

/-- Parsing the server-first-message the server builds yields exactly the
expected fields. -/
theorem parseServerFirst_shape (NN B D : Str) (iters : Int)
    (hNN : plainValue NN) (hNNne : NN ≠ [])
    (hB : plainValue B) (hBne : B ≠ [])
    (hD : plainValue D) (hDne : D ≠ [])
    (hDval : jsParseInt D = some iters) :
    parseServerFirst ("r=".data ++ NN ++ ",s=".data ++ B ++ ",i=".data ++ D) = .ok
      { message := "r=".data ++ NN ++ ",s=".data ++ B ++ ",i=".data ++ D,
        nonce := NN, salt := B64.decodeStr B, iterations := iters } := by
  simp only [parseServerFirst]
  rw [readScram_serverFirstParams NN B D hNN hB hD "r".data,
    readScram_serverFirstParams NN B D hNN hB hD "s".data,
    readScram_serverFirstParams NN B D hNN hB hD "i".data,
    if_neg (by decide : ¬("r".data : Str) = ['i']),
    if_neg (by decide : ¬("r".data : Str) = ['s']),
    if_pos (by decide : ("r".data : Str) = ['r']),
    if_neg (by decide : ¬("s".data : Str) = ['i']),
    if_pos (by decide : ("s".data : Str) = ['s']),
    if_pos (by decide : ("i".data : Str) = ['i']),
    if_pos ⟨truthy_some hNNne, truthy_some hBne, truthy_some hDne⟩]
  simp only [Option.getD_some, hDval]

/-- First occurrence of the literal `,p=` in the client-final-message the
client builds: exactly at the end of the without-proof part. -/
theorem findSub_clientFinal (G NN P : Str) (hG : plainValue G) (hNN : plainValue NN) :
    findSub ",p=".data (("c=".data ++ G ++ ",r=".data ++ NN) ++ ",p=".data ++ P) =
      some ("c=".data ++ G ++ ",r=".data ++ NN).length := by
  have hsep : (",p=".data : Str) = ',' :: 'p' :: '=' :: [] := rfl
  have hform : (("c=".data ++ G ++ ",r=".data ++ NN) ++ ",p=".data ++ P : Str) =
      ("c=".data ++ G) ++ (',' :: (('r' :: '=' :: NN) ++ (',' :: 'p' :: '=' :: P))) := by
    simp
  have hGpre : ∀ a ∈ ("c=".data ++ G : Str), a ≠ ',' := by
    intro a ha
    simp at ha
    rcases ha with rfl | rfl | ha
    · decide
    · decide
    · exact (hG a ha).1
  have hD : findSub (',' :: 'p' :: '=' :: []) (',' :: 'p' :: '=' :: P) = some 0 :=
    @findSub_append_sep ',' ('p' :: '=' :: []) P
  rw [hform, hsep, findSub_comma_append _ hGpre,
    findSub_cons_of_not_starts (by rfl),
    findSub_comma_append _ (noComma_key_value (by decide) (by decide) hNN), hD]
  simp [List.length_append]
  omega

/-- Parsing the client-final-message the client builds yields exactly the
expected fields. -/
theorem parseClientFinal_shape (G NN P : Str)
    (hG : plainValue G) (hGne : G ≠ [])
    (hNN : plainValue NN) (hNNne : NN ≠ [])
    (hP : plainValue P) (hPne : P ≠ []) :
    parseClientFinal (("c=".data ++ G ++ ",r=".data ++ NN) ++ ",p=".data ++ P) = .ok
      { message := ("c=".data ++ G ++ ",r=".data ++ NN) ++ ",p=".data ++ P,
        messageWithoutProof := "c=".data ++ G ++ ",r=".data ++ NN,
        gs2Header := G, nonce := NN, clientProof := P } := by
  have hrest : findSub ",p=".data P = none :=
    findSub_comma_of_not_mem (fun a ha => (hP a ha).1)
  have hsplit : jsSplitStr ",p=".data
      (("c=".data ++ G ++ ",r=".data ++ NN) ++ ",p=".data ++ P) =
      ["c=".data ++ G ++ ",r=".data ++ NN, P] :=
    jsSplitStr_two (findSub_clientFinal G NN P hG hNN) hrest
  simp only [parseClientFinal, hsplit]
  rw [show (["c=".data ++ G ++ ",r=".data ++ NN, P].headD [] : Str) =
    "c=".data ++ G ++ ",r=".data ++ NN from rfl]
  rw [readScram_clientFinalParams G NN hG hNN "c".data,
    readScram_clientFinalParams G NN hG hNN "r".data,
    if_neg (by decide : ¬("c".data : Str) = ['r']),
    if_pos (by decide : ("c".data : Str) = ['c']),
    if_pos (by decide : ("r".data : Str) = ['r'])]
  have hc1 : ¬(("c=".data ++ G ++ ",r=".data ++ NN : Str).isEmpty = true) := by
    have h2 : ("c=".data ++ G ++ ",r=".data ++ NN : Str).isEmpty = false := rfl
    simp [h2]
  have hc2 : ¬((["c=".data ++ G ++ ",r=".data ++ NN, P].drop 1).isEmpty = true) := by
    simp
  have hc3 : ¬(((["c=".data ++ G ++ ",r=".data ++ NN, P].drop 1).headD [] : Str).isEmpty = true) := by
    simp [isEmpty_false_of_ne hPne]
  rw [if_pos ⟨truthy_some hGne, truthy_some hNNne, hc1, hc2, hc3⟩]
  rfl

/-- Parsing a server-final-message carrying a verifier yields exactly the
expected fields. -/
theorem parseServerFinal_shape_v (P : Str) (hP : plainValue P) (hPne : P ≠ []) :
    parseServerFinal ("v=".data ++ P) = .ok
      { message := "v=".data ++ P, error := none, verifier := some P } := by
  show parseServerFinal ('v' :: '=' :: P) = _
  simp only [parseServerFinal]
  rw [readScram_singleParam 'v' P (by decide) hP "e".data,
    readScram_singleParam 'v' P (by decide) hP "v".data,
    if_neg (by decide : ¬("e".data : Str) = ['v']),
    if_pos (by decide : ("v".data : Str) = ['v'])]
  rw [show truthy none = false from rfl, if_pos (truthy_some hPne)]
  rfl

/-- Parsing a server-final-message carrying an error token yields exactly
the expected fields. -/
theorem parseServerFinal_shape_e (C : Str) (hC : plainValue C) (hCne : C ≠ []) :
    parseServerFinal ("e=".data ++ C) = .ok
      { message := "e=".data ++ C, error := some C, verifier := none } := by
  show parseServerFinal ('e' :: '=' :: C) = _
  simp only [parseServerFinal]
  rw [readScram_singleParam 'e' C (by decide) hC "e".data,
    readScram_singleParam 'e' C (by decide) hC "v".data,
    if_pos (by decide : ("e".data : Str) = ['e']),
    if_neg (by decide : ¬("v".data : Str) = ['e'])]
  rw [show truthy none = false from rfl, if_pos (truthy_some hCne)]
  rfl

/-- The parsed client-first-message produced by an honest client: username
text `U` normalizing to `P`, client nonce text `CN`. -/
def cfmRec (U CN P : Str) : MsgClientFirst :=
  { message := "n,,n=".data ++ U ++ ",r=".data ++ CN,
    messageBare := "n=".data ++ U ++ ",r=".data ++ CN,
    user := P, gs2CbindFlag := ['n'], nonce := CN, mext := none }

/-- The parsed server-first-message produced by an honest server: combined
nonce text `NN`, salt text `B` decoding to `salt`, iteration count `it`. -/
def sfmRec (NN B : Str) (salt : Bytes) (it : Nat) : MsgServerFirst :=
  { message := "r=".data ++ NN ++ ",s=".data ++ B ++ ",i=".data ++ natToStr it,
    nonce := NN, salt := salt, iterations := (it : Int) }

/-- The parsed client-final-message produced by an honest client: combined
nonce text `NN`, base64 proof text `PF`. -/
def cffmRec (NN PF : Str) : MsgClientFinal :=
  { message := ("c=".data ++ "biws".data ++ ",r=".data ++ NN) ++ ",p=".data ++ PF,
    messageWithoutProof := "c=".data ++ "biws".data ++ ",r=".data ++ NN,
    gs2Header := "biws".data, nonce := NN, clientProof := PF }

theorem plainValue_natToStr (n : Nat) : plainValue (natToStr n) := by
  intro a ha
  have hd := isDigitChar_bounds ((natToStr_spec n).2.1 a ha)
  constructor
  · intro hc
    subst hc
    revert hd
    decide
  · simp [JsRuntime.isJsWs]
    omega

theorem jsParseInt_natToStr (n : Nat) : jsParseInt (natToStr n) = some (n : Int) := by
  obtain ⟨h1, h2, h3⟩ := natToStr_spec n
  rw [jsParseInt_digits h1 h2, h3]
  rfl

/-- The createClientFirstMessage step of an honest exchange. -/
theorem createClientFirstMessage_shape (st : ScramRequestState) (U P : Str)
    (cr : Bytes) (hU : plainValue U) (hUne : U ≠ [])
    (hprep : saslPrep U = .ok P) (hPne : P ≠ [])
    (hcr : cr ≠ []) (hcrb : ∀ b ∈ cr, b < 256) :
    ScramRequestClient.createClientFirstMessage st U cr =
      (.ok (cfmRec U (B64.encodeBytes cr) P),
        setClientFirstMessage st (cfmRec U (B64.encodeBytes cr) P)) := by
  have hmsg : (ScramRequestClient.gs2_header ++ ",n=".data ++ U ++ ",r=".data ++
      B64.encodeBytes cr : Str) =
      "n,,n=".data ++ U ++ ",r=".data ++ B64.encodeBytes cr := by
    simp [ScramRequestClient.gs2_header]
  simp only [ScramRequestClient.createClientFirstMessage, hmsg,
    parseClientFirst_shape U (B64.encodeBytes cr) P hU hUne
      (B64.encodeBytes_plain hcrb) (B64.encodeBytes_ne_nil hcr) hprep hPne]
  rfl

theorem plainValue_append {x y : Str} (hx : plainValue x) (hy : plainValue y) :
    plainValue (x ++ y) := by
  intro a ha
  rcases List.mem_append.mp ha with ha | ha
  · exact hx a ha
  · exact hy a ha

theorem append_ne_nil_right {x y : Str} (hy : y ≠ []) : x ++ y ≠ [] := by
  intro hc
  exact hy (List.append_eq_nil.mp hc).2

/-- The createServerFirstMessage step of an honest exchange with a known
user. -/
theorem createServerFirstMessage_shape (repo : ScramUserRepo)
    (saltG : SaltGeneratorFn) (defIter : Nat) (st : ScramRequestState)
    (cfm : MsgClientFirst) (sr : Bytes) (rec : ScramUserRec)
    (hcf : st.clientFirstMessage = some cfm)
    (hrepo : repo cfm.user = some rec)
    (hsaltb : ∀ b ∈ rec.salt, b < 256) (hsaltne : rec.salt ≠ [])
    (hnonce : plainValue cfm.nonce)
    (hsr : sr ≠ []) (hsrb : ∀ b ∈ sr, b < 256) :
    ScramRequestServer.createServerFirstMessage repo saltG defIter st sr =
      (.ok (sfmRec (cfm.nonce ++ B64.encodeBytes sr) (B64.encodeBytes rec.salt)
          rec.salt rec.iterations),
        setServerFirstMessage st (sfmRec (cfm.nonce ++ B64.encodeBytes sr)
          (B64.encodeBytes rec.salt) rec.salt rec.iterations)) := by
  simp only [ScramRequestServer.createServerFirstMessage, hcf, hrepo]
  rw [parseServerFirst_shape (cfm.nonce ++ B64.encodeBytes sr)
    (B64.encodeBytes rec.salt) (natToStr rec.iterations) (rec.iterations : Int)
    (plainValue_append hnonce (B64.encodeBytes_plain hsrb))
    (append_ne_nil_right (B64.encodeBytes_ne_nil hsr))
    (B64.encodeBytes_plain hsaltb) (B64.encodeBytes_ne_nil hsaltne)
    (plainValue_natToStr rec.iterations) (natToStr_spec rec.iterations).1
    (jsParseInt_natToStr rec.iterations)]
  rw [B64.decode_encode hsaltb]
  rfl

/-- The client-final-without-proof text of an honest exchange. -/
def honestCfwp (NN : Str) : Str := "c=".data ++ "biws".data ++ ",r=".data ++ NN

/-- The base64 client proof text an honest client computes. -/
def clientProofText (A : ScramAlgoModel) (cf : MsgClientFirst) (sf : MsgServerFirst)
    (sp : Bytes) : Str :=
  B64.encodeBytes (xorArrayBuffer (ScramAlgo.getClientKey A sp)
    (ScramAlgo.hmac A (ScramAlgo.getStoredKey A sp)
      (getAuthMessage cf sf (honestCfwp sf.nonce))))

/-- The base64 server signature text an honest server computes. -/
def serverProofText (A : ScramAlgoModel) (cf : MsgClientFirst) (sf : MsgServerFirst)
    (sp : Bytes) : Str :=
  B64.encodeBytes (ScramAlgo.hmac A (ScramAlgo.getServerKey A sp)
    (getAuthMessage cf sf (honestCfwp sf.nonce)))

/-- The parsed server-final-message of a successful verification. -/
def sfinRecV (PV : Str) : MsgServerFinal :=
  { message := "v=".data ++ PV, error := none, verifier := some PV }

theorem getClientKey_eq (A : ScramAlgoModel) (sp : Bytes) :
    ScramAlgo.getClientKey A sp = webHmac A (utf8Encode "Client Key".data) sp := rfl

theorem getServerKey_eq (A : ScramAlgoModel) (sp : Bytes) :
    ScramAlgo.getServerKey A sp = webHmac A (utf8Encode "Server Key".data) sp := rfl

theorem getStoredKey_eq (A : ScramAlgoModel) (sp : Bytes) :
    ScramAlgo.getStoredKey A sp = A.hashFn (ScramAlgo.getClientKey A sp) := rfl

theorem hmac_eq (A : ScramAlgoModel) (m s : Bytes) :
    ScramAlgo.hmac A m s = webHmac A s m := rfl

theorem getClientKey_length {A : ScramAlgoModel} {hLen : Nat}
    (hAlen : ∀ x, (A.hashFn x).length = hLen) (sp : Bytes) :
    (ScramAlgo.getClientKey A sp).length = hLen := by
  rw [getClientKey_eq]
  exact webHmac_length hAlen _ _

theorem getClientKey_lt {A : ScramAlgoModel}
    (hAb : ∀ x, ∀ b ∈ A.hashFn x, b < 256) (sp : Bytes) :
    ∀ b ∈ ScramAlgo.getClientKey A sp, b < 256 := by
  rw [getClientKey_eq]
  exact webHmac_lt hAb _ _

theorem hmac_length {A : ScramAlgoModel} {hLen : Nat}
    (hAlen : ∀ x, (A.hashFn x).length = hLen) (m s : Bytes) :
    (ScramAlgo.hmac A m s).length = hLen := by
  rw [hmac_eq]
  exact webHmac_length hAlen _ _

theorem hmac_lt {A : ScramAlgoModel}
    (hAb : ∀ x, ∀ b ∈ A.hashFn x, b < 256) (m s : Bytes) :
    ∀ b ∈ ScramAlgo.hmac A m s, b < 256 := by
  rw [hmac_eq]
  exact webHmac_lt hAb _ _

/-- The createClientFinalMessage step of an honest exchange. -/
theorem createClientFinalMessage_shape (A : ScramAlgoModel) {hLen : Nat}
    (hAlen : ∀ x, (A.hashFn x).length = hLen) (hpos : 0 < hLen)
    (hAb : ∀ x, ∀ b ∈ A.hashFn x, b < 256)
    (st : ScramRequestState) (cf : MsgClientFirst) (sf : MsgServerFirst) (sp : Bytes)
    (hcf : st.clientFirstMessage = some cf) (hsf : st.serverFirstMessage = some sf)
    (hNN : plainValue sf.nonce) (hNNne : sf.nonce ≠ []) :
    ScramRequestClient.createClientFinalMessage A st sp =
      (.ok (cffmRec sf.nonce (clientProofText A cf sf sp)),
        setClientFinalMessage st (cffmRec sf.nonce (clientProofText A cf sf sp))) := by
  have hg : B64.encodeBytes (utf8Encode (ScramRequestClient.gs2_header ++ ",".data)) =
      "biws".data := rfl
  have hxlen : (xorArrayBuffer (ScramAlgo.getClientKey A sp)
      (ScramAlgo.hmac A (ScramAlgo.getStoredKey A sp)
        (getAuthMessage cf sf (honestCfwp sf.nonce)))) ≠ [] := by
    have h1 : (xorArrayBuffer (ScramAlgo.getClientKey A sp)
        (ScramAlgo.hmac A (ScramAlgo.getStoredKey A sp)
          (getAuthMessage cf sf (honestCfwp sf.nonce)))).length = hLen := by
      rw [xorArrayBuffer_length, getClientKey_length hAlen]
    intro hc
    rw [hc] at h1
    simp at h1
    omega
  simp only [ScramRequestClient.createClientFinalMessage, hcf, hsf, hg]
  rw [parseClientFinal_shape "biws".data sf.nonce
    (B64.encodeBytes (xorArrayBuffer (ScramAlgo.getClientKey A sp)
      (ScramAlgo.hmac A (ScramAlgo.getStoredKey A sp)
        (getAuthMessage cf sf ("c=".data ++ "biws".data ++ ",r=".data ++ sf.nonce)))))
    (by decide) (by decide) hNN hNNne
    (B64.encodeBytes_plain (xorArrayBuffer_lt _ _))
    (B64.encodeBytes_ne_nil (by simpa [honestCfwp] using hxlen))]
  rfl

/-- The server accepts the honest client proof. -/
theorem verifyClientFinalMessage_true (A : ScramAlgoModel) {hLen : Nat}
    (hAlen : ∀ x, (A.hashFn x).length = hLen)
    (hAb : ∀ x, ∀ b ∈ A.hashFn x, b < 256)
    (repo : ScramUserRepo) (st : ScramRequestState)
    (cf : MsgClientFirst) (sf : MsgServerFirst) (sp : Bytes) (rec : ScramUserRec)
    (hcf : st.clientFirstMessage = some cf) (hsf : st.serverFirstMessage = some sf)
    (hcfin : st.clientFinalMessage = some (cffmRec sf.nonce (clientProofText A cf sf sp)))
    (hrepo : repo cf.user = some rec)
    (hstored : rec.storedKey = ScramAlgo.getStoredKey A sp) :
    ScramRequestServer.verifyClientFinalMessage A repo st = (.ok true, st) := by
  simp only [ScramRequestServer.verifyClientFinalMessage, hcf, hsf, hcfin, hrepo]
  rw [show (cffmRec sf.nonce (clientProofText A cf sf sp)).clientProof =
    clientProofText A cf sf sp from rfl]
  rw [show (cffmRec sf.nonce (clientProofText A cf sf sp)).messageWithoutProof =
    honestCfwp sf.nonce from rfl]
  rw [show clientProofText A cf sf sp = B64.encodeBytes
    (xorArrayBuffer (ScramAlgo.getClientKey A sp)
      (ScramAlgo.hmac A (ScramAlgo.getStoredKey A sp)
        (getAuthMessage cf sf (honestCfwp sf.nonce)))) from rfl]
  rw [B64.decode_encode (xorArrayBuffer_lt _ _), hstored]
  have hcancel : xorArrayBuffer
      (ScramAlgo.hmac A (ScramAlgo.getStoredKey A sp)
        (getAuthMessage cf sf (honestCfwp sf.nonce)))
      (xorArrayBuffer (ScramAlgo.getClientKey A sp)
        (ScramAlgo.hmac A (ScramAlgo.getStoredKey A sp)
          (getAuthMessage cf sf (honestCfwp sf.nonce)))) =
      ScramAlgo.getClientKey A sp := by
    refine xorArrayBuffer_cancel ?_ ?_ ?_
    · rw [getClientKey_length hAlen, hmac_length hAlen]
    · exact getClientKey_lt hAb sp
    · exact hmac_lt hAb _ _
  rw [hcancel]
  rw [show ScramAlgo.hash A (ScramAlgo.getClientKey A sp) =
    ScramAlgo.getStoredKey A sp from rfl]
  simp

/-- The createServerFinalMessage step of an honest exchange: the server
answers with its verifier. -/
theorem createServerFinalMessage_ok (A : ScramAlgoModel) {hLen : Nat}
    (hAlen : ∀ x, (A.hashFn x).length = hLen) (hpos : 0 < hLen)
    (hAb : ∀ x, ∀ b ∈ A.hashFn x, b < 256)
    (repo : ScramUserRepo) (st : ScramRequestState)
    (cf : MsgClientFirst) (sf : MsgServerFirst) (sp : Bytes) (rec : ScramUserRec)
    (hcf : st.clientFirstMessage = some cf) (hsf : st.serverFirstMessage = some sf)
    (hcfin : st.clientFinalMessage = some (cffmRec sf.nonce (clientProofText A cf sf sp)))
    (hrepo : repo cf.user = some rec)
    (hstored : rec.storedKey = ScramAlgo.getStoredKey A sp)
    (hserver : rec.serverKey = ScramAlgo.getServerKey A sp)
    (hmext : cf.mext = none) (hflag : cf.gs2CbindFlag = ['n']) :
    ScramRequestServer.createServerFinalMessage A repo false st =
      (.ok (sfinRecV (serverProofText A cf sf sp)),
        setServerFinalMessage st (sfinRecV (serverProofText A cf sf sp))) := by
  have hPVne : ScramAlgo.hmac A rec.serverKey
      (getAuthMessage cf sf (honestCfwp sf.nonce)) ≠ [] := by
    intro hc
    have h1 := hmac_length hAlen rec.serverKey
      (getAuthMessage cf sf (honestCfwp sf.nonce))
    rw [hc] at h1
    simp at h1
    omega
  have hver := verifyClientFinalMessage_true A hAlen hAb repo st cf sf sp rec
    hcf hsf hcfin hrepo hstored
  simp only [ScramRequestServer.createServerFinalMessage, hcf, hsf, hcfin, hmext, hflag]
  rw [show (cffmRec sf.nonce (clientProofText A cf sf sp)).messageWithoutProof =
    honestCfwp sf.nonce from rfl]
  simp only [repoFind, hrepo, truthy, hver]
  have hps : parseServerFinal (['v', '='] ++ B64.encodeBytes (ScramAlgo.hmac A
      rec.serverKey (getAuthMessage cf sf (honestCfwp sf.nonce)))) =
      .ok (sfinRecV (B64.encodeBytes (ScramAlgo.hmac A rec.serverKey
        (getAuthMessage cf sf (honestCfwp sf.nonce))))) :=
    parseServerFinal_shape_v (B64.encodeBytes (ScramAlgo.hmac A
      rec.serverKey (getAuthMessage cf sf (honestCfwp sf.nonce))))
      (B64.encodeBytes_plain (hmac_lt hAb _ _)) (B64.encodeBytes_ne_nil hPVne)
  show (match parseServerFinal (['v', '='] ++ B64.encodeBytes (ScramAlgo.hmac A
      rec.serverKey (getAuthMessage cf sf (honestCfwp sf.nonce)))) with
    | Except.ok m => (Except.ok m, setServerFinalMessage st m)
    | Except.error e =>
      match parseServerFinal (['e', '='] ++ ScramRequestServer.caughtErrorCode e) with
      | Except.ok m => (Except.ok m, setServerFinalMessage st m)
      | Except.error e2 => (Except.error e2, st)) =
    (Except.ok (sfinRecV (serverProofText A cf sf sp)),
      setServerFinalMessage st (sfinRecV (serverProofText A cf sf sp)))
  rw [hps, hserver]
  rfl

/-- The client accepts the honest server verifier. -/
theorem verifyServerFinalMessage_true (A : ScramAlgoModel)
    (st : ScramRequestState)
    (cf : MsgClientFirst) (sf : MsgServerFirst) (sp : Bytes)
    (hcf : st.clientFirstMessage = some cf) (hsf : st.serverFirstMessage = some sf)
    (hcfin : st.clientFinalMessage = some (cffmRec sf.nonce (clientProofText A cf sf sp)))
    (hsfin : st.serverFinalMessage = some (sfinRecV (serverProofText A cf sf sp))) :
    ScramRequestClient.verifyServerFinalMessage A st sp = (.ok true, st) := by
  simp only [ScramRequestClient.verifyServerFinalMessage, hcf, hsf, hcfin, hsfin]
  rw [show (cffmRec sf.nonce (clientProofText A cf sf sp)).messageWithoutProof =
    honestCfwp sf.nonce from rfl]
  rw [show (sfinRecV (serverProofText A cf sf sp)).verifier =
    some (serverProofText A cf sf sp) from rfl]
  rw [show serverProofText A cf sf sp = B64.encodeBytes
    (ScramAlgo.hmac A (ScramAlgo.getServerKey A sp)
      (getAuthMessage cf sf (honestCfwp sf.nonce))) from rfl]
  simp

/-- C1: for every valid username, password, salt and iteration count, a
full exchange with matching credentials — client createClientFirstMessage,
server createServerFirstMessage against a repository holding the
credentials derived from that password, salt and iteration count, client
createClientFinalMessage from the salted password, server
createServerFinalMessage — makes the server verifyClientFinalMessage and
the client verifyServerFinalMessage both return true.  Validity means: the
username normalizes under saslprep to a nonempty string and is free of
commas and whitespace, the password survives saslprep, salt and nonce
buffers are nonempty byte arrays, and the iteration count is at least
one; the hash algorithm has positive fixed digest length with byte-valued
output, as every WebCrypto digest does. -/
theorem scram_c1_full_exchange_mutual_auth
    (A : ScramAlgoModel) (hLen : Nat)
    (hAlen : ∀ x, (A.hashFn x).length = hLen) (hpos : 0 < hLen)
    (hAb : ∀ x, ∀ b ∈ A.hashFn x, b < 256)
    (U P pw : Str) (hU : plainValue U) (hUne : U ≠ [])
    (hprep : saslPrep U = .ok P) (hPne : P ≠ [])
    (salt : Bytes) (hsaltb : ∀ b ∈ salt, b < 256) (hsaltne : salt ≠ [])
    (iterations : Nat) (hiter : 1 ≤ iterations)
    (sp : Bytes)
    (hsp : ScramAlgo.getSaltedPassword A pw salt (iterations : Int) = .ok sp)
    (cr sr : Bytes) (hcr : cr ≠ []) (hcrb : ∀ b ∈ cr, b < 256)
    (hsr : sr ≠ []) (hsrb : ∀ b ∈ sr, b < 256)
    (saltG : SaltGeneratorFn) (defIter : Nat) :
    fullExchange A (singletonRepo (registerUser A P salt sp iterations)) saltG
      defIter U sp cr sr = .ok (true, true) := by
  set rec := registerUser A P salt sp iterations with hrec
  set CN := B64.encodeBytes cr with hCN
  set SN := B64.encodeBytes sr with hSN
  set cfm := cfmRec U CN P with hcfm
  set sfm := sfmRec (cfm.nonce ++ SN) (B64.encodeBytes rec.salt) rec.salt
    rec.iterations with hsfm
  set cffm := cffmRec sfm.nonce (clientProofText A cfm sfm sp) with hcffm
  set sfin := sfinRecV (serverProofText A cfm sfm sp) with hsfin
  have hrepoEq : singletonRepo rec cfm.user = some rec := by
    rw [hcfm, hrec]
    simp [singletonRepo, registerUser, cfmRec]
  have hsaltb2 : ∀ b ∈ rec.salt, b < 256 := by
    rw [hrec]
    exact hsaltb
  have hsaltne2 : rec.salt ≠ [] := by
    rw [hrec]
    exact hsaltne
  have hcfmnonce : plainValue cfm.nonce := by
    rw [hcfm]
    show plainValue (cfmRec U CN P).nonce
    rw [show (cfmRec U CN P).nonce = CN from rfl, hCN]
    exact B64.encodeBytes_plain hcrb
  have hSNplain : plainValue SN := by
    rw [hSN]
    exact B64.encodeBytes_plain hsrb
  have hSNne : SN ≠ [] := by
    rw [hSN]
    exact B64.encodeBytes_ne_nil hsr
  have hsfmnonce : plainValue sfm.nonce := by
    rw [hsfm]
    show plainValue (cfm.nonce ++ SN)
    exact plainValue_append hcfmnonce hSNplain
  have hsfmne : sfm.nonce ≠ [] := by
    rw [hsfm]
    show (cfm.nonce ++ SN) ≠ []
    exact append_ne_nil_right hSNne
  have hstored : rec.storedKey = ScramAlgo.getStoredKey A sp := by
    rw [hrec]
    rfl
  have hserver : rec.serverKey = ScramAlgo.getServerKey A sp := by
    rw [hrec]
    rfl
  have hmext : cfm.mext = none := by
    rw [hcfm]
    rfl
  have hflag : cfm.gs2CbindFlag = ['n'] := by
    rw [hcfm]
    rfl
  have h1 : ScramRequestClient.createClientFirstMessage {} U cr =
      (.ok cfm, setClientFirstMessage {} cfm) := by
    rw [hcfm, hCN]
    exact createClientFirstMessage_shape {} U P cr hU hUne hprep hPne hcr hcrb
  have h2 : ScramRequestServer.createServerFirstMessage (singletonRepo rec) saltG
      defIter (setClientFirstMessage {} cfm) sr =
      (.ok sfm, setServerFirstMessage (setClientFirstMessage {} cfm) sfm) := by
    rw [hsfm, hSN]
    exact createServerFirstMessage_shape (singletonRepo rec) saltG defIter
      (setClientFirstMessage {} cfm) cfm sr rec rfl hrepoEq hsaltb2 hsaltne2
      hcfmnonce hsr hsrb
  have h3 : ScramRequestClient.createClientFinalMessage A
      (setServerFirstMessage (setClientFirstMessage {} cfm) sfm) sp =
      (.ok cffm, setClientFinalMessage
        (setServerFirstMessage (setClientFirstMessage {} cfm) sfm) cffm) := by
    rw [hcffm]
    exact createClientFinalMessage_shape A hAlen hpos hAb
      (setServerFirstMessage (setClientFirstMessage {} cfm) sfm) cfm sfm sp
      rfl rfl hsfmnonce hsfmne
  have hcfin4 : (setClientFinalMessage (setServerFirstMessage
      (setClientFirstMessage {} cfm) sfm) cffm).clientFinalMessage =
      some (cffmRec sfm.nonce (clientProofText A cfm sfm sp)) := by
    rw [hcffm]
    rfl
  have h4 : ScramRequestServer.createServerFinalMessage A (singletonRepo rec)
      false (setClientFinalMessage (setServerFirstMessage
        (setClientFirstMessage {} cfm) sfm) cffm) =
      (.ok sfin, setServerFinalMessage (setClientFinalMessage
        (setServerFirstMessage (setClientFirstMessage {} cfm) sfm) cffm) sfin) := by
    rw [hsfin]
    exact createServerFinalMessage_ok A hAlen hpos hAb (singletonRepo rec)
      (setClientFinalMessage (setServerFirstMessage
        (setClientFirstMessage {} cfm) sfm) cffm) cfm sfm sp rec
      rfl rfl hcfin4 hrepoEq hstored hserver hmext hflag
  have hcfin5 : (setServerFinalMessage (setClientFinalMessage
      (setServerFirstMessage (setClientFirstMessage {} cfm) sfm) cffm)
      sfin).clientFinalMessage =
      some (cffmRec sfm.nonce (clientProofText A cfm sfm sp)) := by
    rw [hcffm]
    rfl
  have h5 : ScramRequestServer.verifyClientFinalMessage A (singletonRepo rec)
      (setServerFinalMessage (setClientFinalMessage (setServerFirstMessage
        (setClientFirstMessage {} cfm) sfm) cffm) sfin) =
      (.ok true, setServerFinalMessage (setClientFinalMessage
        (setServerFirstMessage (setClientFirstMessage {} cfm) sfm) cffm) sfin) :=
    verifyClientFinalMessage_true A hAlen hAb (singletonRepo rec) _ cfm sfm sp rec
      rfl rfl hcfin5 hrepoEq hstored
  have hsfin6 : (setServerFinalMessage (setClientFinalMessage
      (setServerFirstMessage (setClientFirstMessage {} cfm) sfm) cffm)
      sfin).serverFinalMessage =
      some (sfinRecV (serverProofText A cfm sfm sp)) := by
    rw [hsfin]
    rfl
  have h6 : ScramRequestClient.verifyServerFinalMessage A
      (setServerFinalMessage (setClientFinalMessage (setServerFirstMessage
        (setClientFirstMessage {} cfm) sfm) cffm) sfin) sp =
      (.ok true, setServerFinalMessage (setClientFinalMessage
        (setServerFirstMessage (setClientFirstMessage {} cfm) sfm) cffm) sfin) :=
    verifyServerFinalMessage_true A _ cfm sfm sp rfl rfl hcfin5 hsfin6
  simp only [fullExchange, h1, h2, h3, h4, h5, h6]

theorem bytesOfWord_lt (w : Nat) : ∀ b ∈ Sha256.bytesOfWord w, b < 256 := by
  intro b hb
  simp [Sha256.bytesOfWord] at hb
  rcases hb with hb | hb | hb | hb <;> subst hb <;> exact Nat.mod_lt _ (by omega)

theorem sha256_length (x : Bytes) : (Sha256.sha256 x).length = 32 := by
  simp [Sha256.sha256, Sha256.bytesOfWord]

theorem sha256_bytes (x : Bytes) : ∀ b ∈ Sha256.sha256 x, b < 256 := by
  intro b hb
  simp only [Sha256.sha256, List.mem_append] at hb
  rcases hb with ((((((hb | hb) | hb) | hb) | hb) | hb) | hb) | hb <;>
    exact bytesOfWord_lt _ b hb

set_option maxRecDepth 100000 in
/-- C2 counterexample: the claim says getClientKey(saltedPassword) equals
HMAC keyed by the salted password over the message `Client Key`; at the
concrete salted password `[1, 2, 3]` under SHA-256 the code computes a
different value, because ScramAlgo.hmac keys HMAC by its second argument
and getClientKey passes the salted password first. -/
theorem scram_c2_counterexample :
    ScramAlgo.getClientKey sha256Algo [1, 2, 3] ≠
      webHmac sha256Algo [1, 2, 3] (utf8Encode "Client Key".data) := by
  decide

/-- C2 amended: the crypto port HMAC `hmac(message, secret)` is keyed by
its second argument, so getClientKey(saltedPassword) equals HMAC keyed by
the ASCII bytes of `Client Key` over the message saltedPassword,
getServerKey(saltedPassword) equals HMAC keyed by `Server Key` over
saltedPassword, and storedKey is the hash of the client key. -/
theorem scram_c2_amended (A : ScramAlgoModel) (sp m k : Bytes) :
    ScramAlgo.hmac A m k = webHmac A k m ∧
    ScramAlgo.getClientKey A sp = webHmac A (utf8Encode "Client Key".data) sp ∧
    ScramAlgo.getServerKey A sp = webHmac A (utf8Encode "Server Key".data) sp ∧
    ScramAlgo.getStoredKey A sp = ScramAlgo.hash A (ScramAlgo.getClientKey A sp) :=
  ⟨rfl, rfl, rfl, rfl⟩

set_option maxRecDepth 100000 in
/-- C3: the client-side getSaltedPassword never applies saslprep, against
the claim and the specification.  At the password `a` followed by a soft
hyphen (U+00AD, mapped to nothing by saslprep, as the repository's own
message tests exercise), with client-first and server-first set and the
advertised count 1 within the default maximum, the client hashes the raw
UTF-8 bytes while ScramAlgo.getSaltedPassword hashes the normalized ones,
and the two salted passwords differ. -/
theorem scram_c3_client_skips_saslprep :
    (ScramRequestClient.getSaltedPassword sha256Algo
        ScramRequestClient.DEFAULT_CONFIG_maxIterations
        { clientFirstMessage := (parseClientFirst "n,,n=u,r=AAAA".data).toOption,
          serverFirstMessage := (parseServerFirst "r=AAAABBBB,s=AQID,i=1".data).toOption }
        ['a', Char.ofNat 0xAD]).1 =
      .ok (webPbkdf2 sha256Algo (utf8Encode ['a', Char.ofNat 0xAD]) [1, 2, 3] 1) ∧
    ScramAlgo.getSaltedPassword sha256Algo ['a', Char.ofNat 0xAD] [1, 2, 3] 1 =
      .ok (webPbkdf2 sha256Algo (utf8Encode ['a']) [1, 2, 3] 1) ∧
    webPbkdf2 sha256Algo (utf8Encode ['a', Char.ofNat 0xAD]) [1, 2, 3] 1 ≠
      webPbkdf2 sha256Algo (utf8Encode ['a']) [1, 2, 3] 1 := by
  refine ⟨by decide, by decide, by decide⟩

/-- Witness for C1: the full exchange at concrete inputs, hypotheses
discharged at username `u`, password `pw`, salt `[1, 2, 3]`, one
iteration, and concrete nonce buffers. -/
theorem scram_c1_full_exchange_mutual_auth_witness :
    fullExchange sha256Algo
      (singletonRepo (registerUser sha256Algo "u".data [1, 2, 3]
        (webPbkdf2 sha256Algo (utf8Encode "pw".data) [1, 2, 3] 1) 1))
      (fun _ => [7]) 4096 "u".data
      (webPbkdf2 sha256Algo (utf8Encode "pw".data) [1, 2, 3] 1)
      [10, 20, 30] [40, 50, 60] = .ok (true, true) :=
  scram_c1_full_exchange_mutual_auth sha256Algo 32 sha256_length (by decide)
    sha256_bytes "u".data "u".data "pw".data (by decide) (by decide) (by decide)
    (by decide) [1, 2, 3] (by decide) (by decide) 1 (by decide)
    (webPbkdf2 sha256Algo (utf8Encode "pw".data) [1, 2, 3] 1) rfl
    [10, 20, 30] [40, 50, 60] (by decide) (by decide) (by decide) (by decide)
    (fun _ => [7]) 4096


/-- The exchange state the C5 amended witness runs the guard on:
client-first and server-first set, advertised iteration count 4096. -/
def c5cf : MsgClientFirst := cfmRec "u".data "A".data "u".data

/-- The server-first record of the C5 amended witness state. -/
def c5sf : MsgServerFirst := sfmRec "AB".data "AQ==".data [1] 4096

/-- The C5 amended witness state itself. -/
def c5st : ScramRequestState :=
  { clientFirstMessage := some c5cf, serverFirstMessage := some c5sf }

/-- The server-first record the wire text r=AB,s=AQ==,i=0 parses into:
advertised iteration count 0. -/
def c5zeroSf : MsgServerFirst := sfmRec "AB".data "AQ==".data [1] 0

/-- An exchange state holding that zero-count server-first. -/
def c5zeroState : ScramRequestState :=
  { clientFirstMessage := some c5cf, serverFirstMessage := some c5zeroSf }

/-- C5 counterexample: the wire text r=AB,s=AQ==,i=0 parses into a
server-first message advertising the iteration count 0, which is at or
below the default maximum 16777215, yet getSaltedPassword on a state
holding it still fails — inside the PBKDF2 call, which rejects a count
below one — against the claim that the call fails exactly when the count
exceeds the maximum and otherwise proceeds to return the PBKDF2 output. -/
theorem scram_c5_counterexample :
    parseServerFirst "r=AB,s=AQ==,i=0".data = .ok c5zeroSf ∧
    c5zeroSf.iterations ≤ (ScramRequestClient.DEFAULT_CONFIG_maxIterations : Int) ∧
    ScramRequestClient.getSaltedPassword sha256Algo
      ScramRequestClient.DEFAULT_CONFIG_maxIterations c5zeroState "pw".data =
      (.error (.err "pbkdf2 iteration count out of range".data), c5zeroState) := by
  refine ⟨by decide, by decide, by decide⟩

/-- C5 amended: with client-first and server-first set, getSaltedPassword
fails exactly when the advertised iteration count exceeds the configured
maximum, whose default is 16777215, or is below one, in which case the
PBKDF2 call itself rejects it; a count between one and the maximum returns
the PBKDF2 output over the UTF-8 password bytes with the advertised salt
and count, and the state is unchanged in every case. -/
theorem scram_c5_amended
    (A : ScramAlgoModel) (maxIt : Nat) (st : ScramRequestState)
    (cf : MsgClientFirst) (sf : MsgServerFirst) (pw : Str)
    (hcf : st.clientFirstMessage = some cf) (hsf : st.serverFirstMessage = some sf) :
    ScramRequestClient.DEFAULT_CONFIG_maxIterations = 16777215 ∧
    ((maxIt : Int) < sf.iterations →
      ScramRequestClient.getSaltedPassword A maxIt st pw =
        (.error (.err ("Iteration count of ".data ++
          ScramRequestClient.intToStr sf.iterations ++
          " exceeed maximum of ".data ++ natToStr maxIt)), st)) ∧
    (sf.iterations < 1 → sf.iterations ≤ (maxIt : Int) →
      ScramRequestClient.getSaltedPassword A maxIt st pw =
        (.error (.err "pbkdf2 iteration count out of range".data), st)) ∧
    (1 ≤ sf.iterations → sf.iterations ≤ (maxIt : Int) →
      ScramRequestClient.getSaltedPassword A maxIt st pw =
        (.ok (webPbkdf2 A (utf8Encode pw) sf.salt sf.iterations.toNat), st)) := by
  refine ⟨rfl, ?_, ?_, ?_⟩
  · intro h
    simp only [ScramRequestClient.getSaltedPassword, hcf, hsf]
    rw [if_pos h]
  · intro h hle
    simp only [ScramRequestClient.getSaltedPassword, hcf, hsf]
    rw [if_neg (not_lt.mpr hle)]
    simp only [ScramAlgo.pbkdf2, webPbkdf2Checked]
    rw [if_pos h]
  · intro h hle
    simp only [ScramRequestClient.getSaltedPassword, hcf, hsf]
    rw [if_neg (not_lt.mpr hle)]
    simp only [ScramAlgo.pbkdf2, webPbkdf2Checked]
    rw [if_neg (not_lt.mpr h)]

/-- Witness for C5 amended: the guard at the concrete state with
advertised count 4096, configured maximum 256, under SHA-256. -/
theorem scram_c5_amended_witness :
    ScramRequestClient.DEFAULT_CONFIG_maxIterations = 16777215 ∧
    ((256 : Int) < c5sf.iterations →
      ScramRequestClient.getSaltedPassword sha256Algo 256 c5st "pw".data =
        (.error (.err ("Iteration count of ".data ++
          ScramRequestClient.intToStr c5sf.iterations ++
          " exceeed maximum of ".data ++ natToStr 256)), c5st)) ∧
    (c5sf.iterations < 1 → c5sf.iterations ≤ (256 : Int) →
      ScramRequestClient.getSaltedPassword sha256Algo 256 c5st "pw".data =
        (.error (.err "pbkdf2 iteration count out of range".data), c5st)) ∧
    ((1 : Int) ≤ c5sf.iterations → c5sf.iterations ≤ (256 : Int) →
      ScramRequestClient.getSaltedPassword sha256Algo 256 c5st "pw".data =
        (.ok (webPbkdf2 sha256Algo (utf8Encode "pw".data) c5sf.salt
          c5sf.iterations.toNat), c5st)) :=
  scram_c5_amended sha256Algo 256 c5st c5cf c5sf "pw".data rfl rfl

/-- C6 counterexample: the wire text `r=a,s=QQ==,i=-1` constructs a
ScramMessageServerFirst successfully although its iteration count parses
to the negative integer -1, against the claim that construction succeeds
exactly when `i` parses as a non-negative integer. -/
theorem scram_c6_counterexample :
    ((parseServerFirst "r=a,s=QQ==,i=-1".data).toOption.map
      (fun m => m.iterations)) = some (-1) ∧ (-1 : Int) < 0 := by
  refine ⟨by decide, by decide⟩

/-- C6 amended: constructing a ScramMessageServerFirst succeeds exactly
when the parameters r, s and i are present and nonempty and parseInt of
the i value is not NaN; the parsed integer is stored unchecked and may be
negative. -/
theorem scram_c6_amended (s : Str) :
    (parseServerFirst s).toOption.isSome = true ↔
      (truthy (getParam (readScramParamString s) "r".data) = true ∧
       truthy (getParam (readScramParamString s) "s".data) = true ∧
       truthy (getParam (readScramParamString s) "i".data) = true ∧
       jsParseInt ((getParam (readScramParamString s) "i".data).getD []) ≠
         none) := by
  simp only [parseServerFirst]
  split
  case isTrue hc =>
    cases hp : jsParseInt ((getParam (readScramParamString s) "i".data).getD []) <;>
      simp [hp, hc, Except.toOption]
  case isFalse hc =>
    simp only [Except.toOption, Option.isSome]
    constructor
    · intro habs
      exact absurd habs (by simp)
    · intro hr
      exact absurd ⟨hr.1, hr.2.1, hr.2.2.1⟩ hc

/-- C7 counterexample: the wire text `e=boom,v=ver` constructs a
ScramMessageServerFinal successfully carrying BOTH an error token and a
verifier, against the claim that construction succeeds exactly when
exactly one of the two is extractable. -/
theorem scram_c7_counterexample :
    ((parseServerFinal "e=boom,v=ver".data).toOption.map
      (fun m => (m.error, m.verifier))) =
      some (some "boom".data, some "ver".data) := by
  decide

/-- A truthy read is not the absent key. -/
theorem truthy_ne_none {o : Option Str} (h : truthy o = true) : o ≠ none := by
  cases o
  · exact absurd h (by decide)
  · exact fun hc => Option.noConfusion hc

/-- C7 amended: constructing a ScramMessageServerFinal succeeds exactly
when at least one of the parameters e and v is extractable; when both are,
the message carries both fields. -/
theorem scram_c7_amended (s : Str) :
    (parseServerFinal s).toOption.isSome = true ↔
      (truthy (getParam (readScramParamString s) "e".data) = true ∨
       truthy (getParam (readScramParamString s) "v".data) = true) := by
  simp only [parseServerFinal]
  by_cases he : truthy (getParam (readScramParamString s) "e".data) = true
  · rw [if_pos he]
    rw [if_neg (fun hcon => truthy_ne_none he hcon.1)]
    simp [Except.toOption, he]
  · rw [if_neg he]
    by_cases hv : truthy (getParam (readScramParamString s) "v".data) = true
    · rw [if_pos hv]
      rw [if_neg (fun hcon => truthy_ne_none hv hcon.2)]
      simp [Except.toOption, hv]
    · rw [if_neg hv]
      rw [if_pos ⟨rfl, rfl⟩]
      simp [Except.toOption, he, hv]

/-- The key/value pair of a segment exactly as the claim words it: the
text before the first equals sign and the exact text after it; a segment
without an equals sign yields nothing. -/
def exactPairOf (seg : Str) : Option (Str × Str) :=
  (idxOfChar '=' seg).map (fun i => (seg.take i, seg.drop (i + 1)))

/-- The key/value pair of a segment as the code computes it: both halves
passed through the JS trim. -/
def trimPairOf (seg : Str) : Option (Str × Str) :=
  (idxOfChar '=' seg).map (fun i =>
    (jsTrim (seg.take i), jsTrim (seg.drop (i + 1))))

/-- Modelled from the claim wording of C8: split the string on commas,
split each segment at its first equals sign, ignore segments without one,
map each key to the exact segment text after the equals sign, a later
duplicate key overwriting an earlier one. -/
def readScramParamStringSpec (s k : Str) : Option Str :=
  (((splitChar ',' s).filterMap exactPairOf).reverse.find?
    (fun p => p.1 == k)).map (fun p => p.2)

/-- The same last-wins lookup with key and value both passed through the
JS trim the code applies. -/
def readScramParamStringSpecTrim (s k : Str) : Option Str :=
  (((splitChar ',' s).filterMap trimPairOf).reverse.find?
    (fun p => p.1 == k)).map (fun p => p.2)

theorem getParam_foldl_step (segs : List Str) (d : ParamDict) (k : Str) :
    getParam (segs.foldl readScramParamStep d) k =
      (((segs.filterMap trimPairOf).reverse.find?
        (fun p => p.1 == k)).map (fun p => p.2)).or (getParam d k) := by
  induction segs generalizing d with
  | nil => simp
  | cons seg rest ih =>
    rw [List.foldl_cons, ih]
    cases hidx : idxOfChar '=' seg with
    | none =>
      rw [readScramParamStep_skip d seg hidx]
      simp [trimPairOf, hidx]
    | some i =>
      have hpair : trimPairOf seg =
          some (jsTrim (seg.take i), jsTrim (seg.drop (i + 1))) := by
        simp [trimPairOf, hidx]
      have hstep : readScramParamStep d seg =
          dictSet d (jsTrim (seg.take i)) (jsTrim (seg.drop (i + 1))) := by
        simp [readScramParamStep, hidx]
      rw [hstep, getParam_dictSet, List.filterMap_cons, hpair,
        List.reverse_cons, List.find?_append]
      cases hf : (rest.filterMap trimPairOf).reverse.find?
          (fun p => p.1 == k) with
      | some p => simp [hf]
      | none =>
        by_cases hqk : k = jsTrim (seg.take i)
        · simp [hf, List.find?, hqk]
        · have hne : (jsTrim (seg.take i) == k) = false :=
            beq_eq_false_iff_ne.mpr (fun hc => hqk hc.symm)
          simp [hf, List.find?, hne, hqk]

/-- C8 counterexample: on the wire text `a= b ` the code maps the key `a`
to the trimmed text `b`, not to the exact segment text ` b ` after the
equals sign the claim promises. -/
theorem scram_c8_counterexample :
    getParam (readScramParamString "a= b ".data) "a".data = some "b".data ∧
    readScramParamStringSpec "a= b ".data "a".data = some " b ".data ∧
    (some "b".data : Option Str) ≠ some " b ".data := by
  refine ⟨by decide, by decide, by decide⟩

/-- C8 amended: readScramParamString splits on commas and at the first
equals sign, ignores segments without an equals sign, and maps keys with a
later duplicate overwriting an earlier one, but the key and the value are
both passed through the JS trim rather than kept as the exact segment
text. -/
theorem scram_c8_amended (s k : Str) :
    getParam (readScramParamString s) k = readScramParamStringSpecTrim s k := by
  rw [readScramParamString, readScramParamStringSpecTrim, getParam_foldl_step]
  simp [getParam]

/-- C9: every exchange operation called while any of its required
predecessor message slots is unset returns the error naming the missing
predecessors and leaves the exchange state, hence all four message slots,
unchanged. -/
theorem scram_c9_missing_predecessor
    (A : ScramAlgoModel) (repo : ScramUserRepo) (saltG : SaltGeneratorFn)
    (defIter maxIt : Nat) (conceal : Bool) (st : ScramRequestState)
    (pw : Str) (sp rand : Bytes) :
    (st.clientFirstMessage = none ∨ st.serverFirstMessage = none →
      ScramRequestClient.getSaltedPassword A maxIt st pw =
        (.error (.err "Unable to create salted password, missing client-first-message or server-first-message.".data), st)) ∧
    (st.clientFirstMessage = none ∨ st.serverFirstMessage = none →
      ScramRequestClient.createClientFinalMessage A st sp =
        (.error (.err "Unable to create client-final-message, missing client-first-message or server-first-message.".data), st)) ∧
    (st.clientFirstMessage = none ∨ st.serverFirstMessage = none ∨
        st.clientFinalMessage = none ∨ st.serverFinalMessage = none →
      ScramRequestClient.verifyServerFinalMessage A st sp =
        (.error (.err "Unable to verify server-final-message, missing client-first-message, server-first-message, client-final-message or server-final-message.".data), st)) ∧
    (st.clientFirstMessage = none →
      ScramRequestServer.createServerFirstMessage repo saltG defIter st rand =
        (.error (.err "Unable to create server-first-message, missing client-first-message.".data), st)) ∧
    (st.clientFirstMessage = none ∨ st.serverFirstMessage = none ∨
        st.clientFinalMessage = none →
      ScramRequestServer.createServerFinalMessage A repo conceal st =
        (.error (.err "Unable to create server-final-message, missing client-first-message, server-first-message, or client-final-message.".data), st)) ∧
    (st.clientFirstMessage = none ∨ st.serverFirstMessage = none ∨
        st.clientFinalMessage = none →
      ScramRequestServer.verifyClientFinalMessage A repo st =
        (.error (.err "Unable to verify client-final-message, missing client-first-message, server-first-message, or client-final-message.".data), st)) := by
  refine ⟨?_, ?_, ?_, ?_, ?_, ?_⟩
  · rintro (h | h)
    · cases h2 : st.serverFirstMessage <;>
        simp [ScramRequestClient.getSaltedPassword, h, h2]
    · cases h1 : st.clientFirstMessage <;>
        simp [ScramRequestClient.getSaltedPassword, h, h1]
  · rintro (h | h)
    · cases h2 : st.serverFirstMessage <;>
        simp [ScramRequestClient.createClientFinalMessage, h, h2]
    · cases h1 : st.clientFirstMessage <;>
        simp [ScramRequestClient.createClientFinalMessage, h, h1]
  · rintro (h | h | h | h)
    · cases h2 : st.serverFirstMessage <;> cases h3 : st.clientFinalMessage <;>
        cases h4 : st.serverFinalMessage <;>
        simp [ScramRequestClient.verifyServerFinalMessage, h, h2, h3, h4]
    · cases h1 : st.clientFirstMessage <;> cases h3 : st.clientFinalMessage <;>
        cases h4 : st.serverFinalMessage <;>
        simp [ScramRequestClient.verifyServerFinalMessage, h, h1, h3, h4]
    · cases h1 : st.clientFirstMessage <;> cases h2 : st.serverFirstMessage <;>
        cases h4 : st.serverFinalMessage <;>
        simp [ScramRequestClient.verifyServerFinalMessage, h, h1, h2, h4]
    · cases h1 : st.clientFirstMessage <;> cases h2 : st.serverFirstMessage <;>
        cases h3 : st.clientFinalMessage <;>
        simp [ScramRequestClient.verifyServerFinalMessage, h, h1, h2, h3]
  · intro h
    simp [ScramRequestServer.createServerFirstMessage, h]
  · rintro (h | h | h)
    · cases h2 : st.serverFirstMessage <;> cases h3 : st.clientFinalMessage <;>
        simp [ScramRequestServer.createServerFinalMessage, h, h2, h3]
    · cases h1 : st.clientFirstMessage <;> cases h3 : st.clientFinalMessage <;>
        simp [ScramRequestServer.createServerFinalMessage, h, h1, h3]
    · cases h1 : st.clientFirstMessage <;> cases h2 : st.serverFirstMessage <;>
        simp [ScramRequestServer.createServerFinalMessage, h, h1, h2]
  · rintro (h | h | h)
    · cases h2 : st.serverFirstMessage <;> cases h3 : st.clientFinalMessage <;>
        simp [ScramRequestServer.verifyClientFinalMessage, h, h2, h3]
    · cases h1 : st.clientFirstMessage <;> cases h3 : st.clientFinalMessage <;>
        simp [ScramRequestServer.verifyClientFinalMessage, h, h1, h3]
    · cases h1 : st.clientFirstMessage <;> cases h2 : st.serverFirstMessage <;>
        simp [ScramRequestServer.verifyClientFinalMessage, h, h1, h2]

/-- Witness for C9: every operation on the fresh empty exchange state
returns its missing-predecessor error and the unchanged empty state. -/
theorem scram_c9_missing_predecessor_witness :
    ScramRequestClient.getSaltedPassword sha256Algo 4096 {} "pw".data =
      (.error (.err "Unable to create salted password, missing client-first-message or server-first-message.".data), {}) ∧
    ScramRequestClient.createClientFinalMessage sha256Algo {} [1] =
      (.error (.err "Unable to create client-final-message, missing client-first-message or server-first-message.".data), {}) ∧
    ScramRequestClient.verifyServerFinalMessage sha256Algo {} [1] =
      (.error (.err "Unable to verify server-final-message, missing client-first-message, server-first-message, client-final-message or server-final-message.".data), {}) ∧
    ScramRequestServer.createServerFirstMessage (fun _ => none) (fun _ => [1]) 4096 {} [2] =
      (.error (.err "Unable to create server-first-message, missing client-first-message.".data), {}) ∧
    ScramRequestServer.createServerFinalMessage sha256Algo (fun _ => none) false {} =
      (.error (.err "Unable to create server-final-message, missing client-first-message, server-first-message, or client-final-message.".data), {}) ∧
    ScramRequestServer.verifyClientFinalMessage sha256Algo (fun _ => none) {} =
      (.error (.err "Unable to verify client-final-message, missing client-first-message, server-first-message, or client-final-message.".data), {}) := by
  obtain ⟨h1, h2, h3, h4, h5, h6⟩ :=
    scram_c9_missing_predecessor sha256Algo (fun _ => none) (fun _ => [1])
      4096 4096 false {} "pw".data [1] [2]
  exact ⟨h1 (Or.inl rfl), h2 (Or.inl rfl), h3 (Or.inl rfl), h4 rfl,
    h5 (Or.inl rfl), h6 (Or.inl rfl)⟩

/-- The client-first record of the C10 forged exchange: client nonce
AAAA. -/
def c10cf : MsgClientFirst := cfmRec "u".data "AAAA".data "u".data

/-- The server-first record of the C10 forged exchange: combined nonce
ZZZZ, which does not extend the client nonce AAAA. -/
def c10sf : MsgServerFirst := sfmRec "ZZZZ".data "AQ==".data [1] 1

/-- The salted password of the C10 forged exchange. -/
def c10sp : Bytes := [1, 2]

/-- The client-final-without-proof text of the C10 forged exchange, with
nonce BBBB differing from the server-first combined nonce ZZZZ. -/
def c10cfwp : Str := honestCfwp "BBBB".data

/-- The auth transcript of the C10 forged exchange as received. -/
def c10auth : Bytes := getAuthMessage c10cf c10sf c10cfwp

/-- The base64 client proof computed over the transcript as received. -/
def c10proof : Str :=
  B64.encodeBytes (xorArrayBuffer (ScramAlgo.getClientKey sha256Algo c10sp)
    (ScramAlgo.hmac sha256Algo (ScramAlgo.getStoredKey sha256Algo c10sp) c10auth))

/-- The forged client-final record: nonce BBBB, proof over the received
transcript. -/
def c10cffm : MsgClientFinal :=
  { message := c10cfwp ++ ",p=".data ++ c10proof,
    messageWithoutProof := c10cfwp, gs2Header := "biws".data,
    nonce := "BBBB".data, clientProof := c10proof }

/-- The server-final record answering the forged transcript. -/
def c10sfin : MsgServerFinal :=
  sfinRecV (B64.encodeBytes (ScramAlgo.hmac sha256Algo
    (ScramAlgo.getServerKey sha256Algo c10sp) c10auth))

/-- The repository of the C10 forged exchange. -/
def c10repo : ScramUserRepo :=
  singletonRepo (registerUser sha256Algo "u".data [1] c10sp 1)

/-- The server-side state of the C10 forged exchange. -/
def c10serverState : ScramRequestState :=
  { clientFirstMessage := some c10cf, serverFirstMessage := some c10sf,
    clientFinalMessage := some c10cffm }

/-- The client-side state of the C10 forged exchange. -/
def c10clientState : ScramRequestState :=
  { clientFirstMessage := some c10cf, serverFirstMessage := some c10sf,
    clientFinalMessage := some c10cffm, serverFinalMessage := some c10sfin }

set_option maxRecDepth 200000 in
set_option maxHeartbeats 4000000 in
/-- C10: neither verification routine compares nonces.  In the concrete
exchange above, the client-final nonce BBBB differs from the server-first
combined nonce ZZZZ, the combined nonce ZZZZ does not begin with the
client nonce AAAA, and with the proof computed over the transcript as
received the server verifyClientFinalMessage and the client
verifyServerFinalMessage both still return true. -/
theorem scram_c10_no_nonce_comparison :
    c10cffm.nonce ≠ c10sf.nonce ∧
    startsWithStr c10cf.nonce c10sf.nonce = false ∧
    (ScramRequestServer.verifyClientFinalMessage sha256Algo c10repo
      c10serverState).1 = .ok true ∧
    (ScramRequestClient.verifyServerFinalMessage sha256Algo c10clientState
      c10sp).1 = .ok true := by
  refine ⟨by decide, by decide, by decide, by decide⟩

/-- The parsed server-final-message carrying an error token
(src/ts/message/ScramMessageServerFinal.ts on an `e=` text). -/
def sfinRecE (code : Str) : MsgServerFinal :=
  { message := "e=".data ++ code, error := some code, verifier := none }

/-- The outgoing error code after the concealment policy of
ScramRequestServer: the generic token when concealment is on, the caught
code itself otherwise. -/
def concealedCode (conceal : Bool) (code : Str) : Str :=
  if conceal then SCRAM_OTHER_ERROR else code

/-- C4: with client-first, server-first and client-final set,
createServerFinalMessage never propagates a protocol-level failure as a
thrown error: it validates in order — no extension requested, else
extensions-not-supported; channel-binding flag exactly n, else
channel-binding-not-supported; user present in the repository, else
unknown-user; proof verified, else invalid-proof — folds the failing
check's token into an outgoing e= server-final message which it stores and
returns, replaces every outgoing code by other-error when concealment is
enabled, and on success stores and returns the v= verifier message. -/
theorem scram_c4_error_cascade (A : ScramAlgoModel) {hLen : Nat}
    (hAlen : ∀ x, (A.hashFn x).length = hLen) (hpos : 0 < hLen)
    (hAb : ∀ x, ∀ b ∈ A.hashFn x, b < 256)
    (repo : ScramUserRepo) (conceal : Bool) (st : ScramRequestState)
    (cf : MsgClientFirst) (sf : MsgServerFirst) (cfin : MsgClientFinal)
    (hcf : st.clientFirstMessage = some cf) (hsf : st.serverFirstMessage = some sf)
    (hcfin : st.clientFinalMessage = some cfin) :
    (truthy cf.mext = true →
      ScramRequestServer.createServerFinalMessage A repo conceal st =
        (.ok (sfinRecE (concealedCode conceal SCRAM_EXTENSIONS_NOT_SUPPORTED)),
          setServerFinalMessage st
            (sfinRecE (concealedCode conceal SCRAM_EXTENSIONS_NOT_SUPPORTED)))) ∧
    (truthy cf.mext = false → cf.gs2CbindFlag ≠ "n".data →
      ScramRequestServer.createServerFinalMessage A repo conceal st =
        (.ok (sfinRecE (concealedCode conceal SCRAM_CHANNEL_BINDING_NOT_SUPPORTED)),
          setServerFinalMessage st
            (sfinRecE (concealedCode conceal SCRAM_CHANNEL_BINDING_NOT_SUPPORTED)))) ∧
    (truthy cf.mext = false → cf.gs2CbindFlag = "n".data → repo cf.user = none →
      ScramRequestServer.createServerFinalMessage A repo conceal st =
        (.ok (sfinRecE (concealedCode conceal SCRAM_UNKNOWN_USER)),
          setServerFinalMessage st
            (sfinRecE (concealedCode conceal SCRAM_UNKNOWN_USER)))) ∧
    (∀ rec : ScramUserRec, truthy cf.mext = false → cf.gs2CbindFlag = "n".data →
      repo cf.user = some rec →
      (ScramRequestServer.verifyClientFinalMessage A repo st).1 = .ok false →
      ScramRequestServer.createServerFinalMessage A repo conceal st =
        (.ok (sfinRecE (concealedCode conceal SCRAM_INVALID_PROOF)),
          setServerFinalMessage st
            (sfinRecE (concealedCode conceal SCRAM_INVALID_PROOF)))) ∧
    (∀ rec : ScramUserRec, truthy cf.mext = false → cf.gs2CbindFlag = "n".data →
      repo cf.user = some rec →
      (ScramRequestServer.verifyClientFinalMessage A repo st).1 = .ok true →
      ScramRequestServer.createServerFinalMessage A repo conceal st =
        (.ok (sfinRecV (B64.encodeBytes (ScramAlgo.hmac A rec.serverKey
            (getAuthMessage cf sf cfin.messageWithoutProof)))),
          setServerFinalMessage st (sfinRecV (B64.encodeBytes (ScramAlgo.hmac A
            rec.serverKey (getAuthMessage cf sf cfin.messageWithoutProof)))))) := by
  have hplainE : ∀ code : Str, plainValue code → plainValue (concealedCode conceal code) := by
    intro code hc
    cases conceal
    · exact hc
    · exact (by decide : plainValue SCRAM_OTHER_ERROR)
  have hneE : ∀ code : Str, code ≠ [] → concealedCode conceal code ≠ [] := by
    intro code hc
    cases conceal
    · exact hc
    · exact (by decide : (SCRAM_OTHER_ERROR : Str) ≠ [])
  refine ⟨?_, ?_, ?_, ?_, ?_⟩
  · intro htm
    simp only [ScramRequestServer.createServerFinalMessage, hcf, hsf, hcfin, htm]
    show (match parseServerFinal (['e', '='] ++
        (if conceal = true then SCRAM_OTHER_ERROR else
          ScramRequestServer.caughtErrorCode
            (JsError.scram SCRAM_EXTENSIONS_NOT_SUPPORTED))) with
      | Except.ok m => (Except.ok m, setServerFinalMessage st m)
      | Except.error e2 => (Except.error e2, st)) =
      (Except.ok (sfinRecE (concealedCode conceal SCRAM_EXTENSIONS_NOT_SUPPORTED)),
        setServerFinalMessage st
          (sfinRecE (concealedCode conceal SCRAM_EXTENSIONS_NOT_SUPPORTED)))
    have harg : (if conceal = true then SCRAM_OTHER_ERROR else
        ScramRequestServer.caughtErrorCode
          (JsError.scram SCRAM_EXTENSIONS_NOT_SUPPORTED)) =
        concealedCode conceal SCRAM_EXTENSIONS_NOT_SUPPORTED := by
      cases conceal <;> rfl
    rw [harg]
    have hshape : parseServerFinal (['e', '='] ++
        concealedCode conceal SCRAM_EXTENSIONS_NOT_SUPPORTED) =
        .ok (sfinRecE (concealedCode conceal SCRAM_EXTENSIONS_NOT_SUPPORTED)) :=
      parseServerFinal_shape_e _ (hplainE _ (by decide)) (hneE _ (by decide))
    rw [hshape]
  · intro htm hflag
    simp only [ScramRequestServer.createServerFinalMessage, hcf, hsf, hcfin, htm]
    rw [if_pos hflag]
    show (match parseServerFinal (['e', '='] ++
        (if conceal = true then SCRAM_OTHER_ERROR else
          ScramRequestServer.caughtErrorCode
            (JsError.scram SCRAM_CHANNEL_BINDING_NOT_SUPPORTED))) with
      | Except.ok m => (Except.ok m, setServerFinalMessage st m)
      | Except.error e2 => (Except.error e2, st)) =
      (Except.ok (sfinRecE (concealedCode conceal SCRAM_CHANNEL_BINDING_NOT_SUPPORTED)),
        setServerFinalMessage st
          (sfinRecE (concealedCode conceal SCRAM_CHANNEL_BINDING_NOT_SUPPORTED)))
    have harg : (if conceal = true then SCRAM_OTHER_ERROR else
        ScramRequestServer.caughtErrorCode
          (JsError.scram SCRAM_CHANNEL_BINDING_NOT_SUPPORTED)) =
        concealedCode conceal SCRAM_CHANNEL_BINDING_NOT_SUPPORTED := by
      cases conceal <;> rfl
    rw [harg]
    have hshape : parseServerFinal (['e', '='] ++
        concealedCode conceal SCRAM_CHANNEL_BINDING_NOT_SUPPORTED) =
        .ok (sfinRecE (concealedCode conceal SCRAM_CHANNEL_BINDING_NOT_SUPPORTED)) :=
      parseServerFinal_shape_e _ (hplainE _ (by decide)) (hneE _ (by decide))
    rw [hshape]
  · intro htm hflag hrepo
    simp only [ScramRequestServer.createServerFinalMessage, hcf, hsf, hcfin, htm,
      hflag, repoFind, hrepo]
    show (match parseServerFinal (['e', '='] ++
        (if conceal = true then SCRAM_OTHER_ERROR else
          ScramRequestServer.caughtErrorCode (JsError.scram SCRAM_UNKNOWN_USER))) with
      | Except.ok m => (Except.ok m, setServerFinalMessage st m)
      | Except.error e2 => (Except.error e2, st)) =
      (Except.ok (sfinRecE (concealedCode conceal SCRAM_UNKNOWN_USER)),
        setServerFinalMessage st (sfinRecE (concealedCode conceal SCRAM_UNKNOWN_USER)))
    have harg : (if conceal = true then SCRAM_OTHER_ERROR else
        ScramRequestServer.caughtErrorCode (JsError.scram SCRAM_UNKNOWN_USER)) =
        concealedCode conceal SCRAM_UNKNOWN_USER := by
      cases conceal <;> rfl
    rw [harg]
    have hshape : parseServerFinal (['e', '='] ++
        concealedCode conceal SCRAM_UNKNOWN_USER) =
        .ok (sfinRecE (concealedCode conceal SCRAM_UNKNOWN_USER)) :=
      parseServerFinal_shape_e _ (hplainE _ (by decide)) (hneE _ (by decide))
    rw [hshape]
  · intro rec htm hflag hrepo hver
    simp only [ScramRequestServer.createServerFinalMessage, hcf, hsf, hcfin, htm,
      hflag, repoFind, hrepo]
    rw [hver]
    show (match parseServerFinal (['e', '='] ++
        (if conceal = true then SCRAM_OTHER_ERROR else
          ScramRequestServer.caughtErrorCode (JsError.scram SCRAM_INVALID_PROOF))) with
      | Except.ok m => (Except.ok m, setServerFinalMessage st m)
      | Except.error e2 => (Except.error e2, st)) =
      (Except.ok (sfinRecE (concealedCode conceal SCRAM_INVALID_PROOF)),
        setServerFinalMessage st (sfinRecE (concealedCode conceal SCRAM_INVALID_PROOF)))
    have harg : (if conceal = true then SCRAM_OTHER_ERROR else
        ScramRequestServer.caughtErrorCode (JsError.scram SCRAM_INVALID_PROOF)) =
        concealedCode conceal SCRAM_INVALID_PROOF := by
      cases conceal <;> rfl
    rw [harg]
    have hshape : parseServerFinal (['e', '='] ++
        concealedCode conceal SCRAM_INVALID_PROOF) =
        .ok (sfinRecE (concealedCode conceal SCRAM_INVALID_PROOF)) :=
      parseServerFinal_shape_e _ (hplainE _ (by decide)) (hneE _ (by decide))
    rw [hshape]
  · intro rec htm hflag hrepo hver
    simp only [ScramRequestServer.createServerFinalMessage, hcf, hsf, hcfin, htm,
      hflag, repoFind, hrepo]
    rw [hver]
    have hPVne : ScramAlgo.hmac A rec.serverKey
        (getAuthMessage cf sf cfin.messageWithoutProof) ≠ [] := by
      intro hc
      have h1 := hmac_length hAlen rec.serverKey
        (getAuthMessage cf sf cfin.messageWithoutProof)
      rw [hc] at h1
      simp at h1
      omega
    have hps : parseServerFinal (['v', '='] ++ B64.encodeBytes (ScramAlgo.hmac A
        rec.serverKey (getAuthMessage cf sf cfin.messageWithoutProof))) =
        .ok (sfinRecV (B64.encodeBytes (ScramAlgo.hmac A rec.serverKey
          (getAuthMessage cf sf cfin.messageWithoutProof)))) :=
      parseServerFinal_shape_v (B64.encodeBytes (ScramAlgo.hmac A
        rec.serverKey (getAuthMessage cf sf cfin.messageWithoutProof)))
        (B64.encodeBytes_plain (hmac_lt hAb _ _)) (B64.encodeBytes_ne_nil hPVne)
    show (match parseServerFinal (['v', '='] ++ B64.encodeBytes (ScramAlgo.hmac A
        rec.serverKey (getAuthMessage cf sf cfin.messageWithoutProof))) with
      | Except.ok m => (Except.ok m, setServerFinalMessage st m)
      | Except.error e =>
        match parseServerFinal (['e', '='] ++
            (if conceal = true then SCRAM_OTHER_ERROR else
              ScramRequestServer.caughtErrorCode e)) with
        | Except.ok m => (Except.ok m, setServerFinalMessage st m)
        | Except.error e2 => (Except.error e2, st)) =
      (Except.ok (sfinRecV (B64.encodeBytes (ScramAlgo.hmac A rec.serverKey
          (getAuthMessage cf sf cfin.messageWithoutProof)))),
        setServerFinalMessage st (sfinRecV (B64.encodeBytes (ScramAlgo.hmac A
          rec.serverKey (getAuthMessage cf sf cfin.messageWithoutProof)))))
    rw [hps]

/-- The client-first record of the C4 witness: an extension request is
present, so the cascade's first check fires. -/
def c4cf : MsgClientFirst :=
  { message := [], messageBare := [], user := "u".data,
    gs2CbindFlag := ['n'], nonce := "AAAA".data, mext := some ['1'] }

/-- The server-first record of the C4 witness. -/
def c4sf : MsgServerFirst := sfmRec "N".data "AQ==".data [1] 1

/-- The client-final record of the C4 witness. -/
def c4cfin : MsgClientFinal := cffmRec "N".data "P".data

/-- The exchange state of the C4 witness. -/
def c4st : ScramRequestState :=
  { clientFirstMessage := some c4cf, serverFirstMessage := some c4sf,
    clientFinalMessage := some c4cfin }

/-- Witness for C4: on the concrete state whose client-first requests an
extension, with concealment enabled, the server answers the stored e=
message with the concealed generic token. -/
theorem scram_c4_error_cascade_witness :
    ScramRequestServer.createServerFinalMessage sha256Algo (fun _ => none)
      true c4st =
      (.ok (sfinRecE (concealedCode true SCRAM_EXTENSIONS_NOT_SUPPORTED)),
        setServerFinalMessage c4st
          (sfinRecE (concealedCode true SCRAM_EXTENSIONS_NOT_SUPPORTED))) :=
  (scram_c4_error_cascade sha256Algo sha256_length (by decide) sha256_bytes
    (fun _ => none) true c4st c4cf c4sf c4cfin rfl rfl rfl).1 rfl
